import Mathlib

/-!
Camera obstacle utilities: record codec and type mapper.

A shallow embedding of `modules/perception/obstacle/camera/common/util.cc`.

Modelling conventions.
* A `std::string` is a `List Char` (one `Char` per byte).
* `float` and `double` values are exact rationals (`ℚ`): binary rounding,
  infinities and NaN are outside the model.
* A text file is its content, a `List Char`; a file that cannot be opened is
  `none`.
-/

namespace apollo
namespace perception

/-! ## Types declared in headers that are not part of the sources -/

/-- Modelled from the spec: the enumeration `ObjectType` (header `types.h` is
missing), the six categories of the data model followed by the sentinel
`MAX_OBJECT_TYPE` that the loader uses to size `type_probs`. -/
inductive ObjectType where
  | UNKNOWN
  | UNKNOWN_MOVABLE
  | UNKNOWN_UNMOVABLE
  | PEDESTRIAN
  | BICYCLE
  | VEHICLE
  | MAX_OBJECT_TYPE
deriving DecidableEq, Repr

/-- The integer value of an enumerator, `static_cast<int>(type)`. -/
def ObjectType.toNat : ObjectType → Nat
  | .UNKNOWN => 0
  | .UNKNOWN_MOVABLE => 1
  | .UNKNOWN_UNMOVABLE => 2
  | .PEDESTRIAN => 3
  | .BICYCLE => 4
  | .VEHICLE => 5
  | .MAX_OBJECT_TYPE => 6

/-- An enumerator that names a category (everything but the sentinel). -/
def ObjectType.isCategory (t : ObjectType) : Bool :=
  decide (t ≠ .MAX_OBJECT_TYPE)

/-! ## Type mapper -/

/-- The function `std::tolower` in the "C" locale: `A`..`Z` go to `a`..`z`,
every other character is unchanged. -/
def tolower (c : Char) : Char :=
  if 'A' ≤ c ∧ c ≤ 'Z' then Char.ofNat (c.toNat + 32) else c

/-- The call `std::transform(begin, end, begin, tolower)`. -/
def lower (s : List Char) : List Char := s.map tolower

/-- Source `get_type_text`, util.cc lines 290-302. -/
def get_type_text (type : ObjectType) : List Char :=
  if type = ObjectType.VEHICLE then "car".toList
  else if type = ObjectType.PEDESTRIAN then "pedestrian".toList
  else if type = ObjectType.BICYCLE then "bicycle".toList
  else "unknown".toList

/-- Source `get_object_type`, util.cc lines 304-343: the chain of
comparisons on the lower-cased copy `temp_type`. -/
def get_object_type (type : List Char) : ObjectType :=
  let temp_type := lower type
  if temp_type = "unknown".toList then ObjectType.UNKNOWN
  else if temp_type = "unknown_movable".toList then ObjectType.UNKNOWN_MOVABLE
  else if temp_type = "unknown_unmovable".toList then ObjectType.UNKNOWN_UNMOVABLE
  else if temp_type = "pedestrian".toList then ObjectType.PEDESTRIAN
  else if temp_type = "bicycle".toList then ObjectType.BICYCLE
  else if temp_type = "vehicle".toList then ObjectType.VEHICLE
  else if temp_type = "bus".toList then ObjectType.VEHICLE
  else if temp_type = "car".toList then ObjectType.VEHICLE
  else if temp_type = "cyclist".toList then ObjectType.BICYCLE
  else if temp_type = "dontcare".toList then ObjectType.UNKNOWN
  else if temp_type = "misc".toList then ObjectType.UNKNOWN
  else if temp_type = "person_sitting".toList then ObjectType.PEDESTRIAN
  else if temp_type = "tram".toList then ObjectType.VEHICLE
  else if temp_type = "truck".toList then ObjectType.VEHICLE
  else if temp_type = "van".toList then ObjectType.VEHICLE
  else ObjectType.UNKNOWN

/-- The alias table of the specification, section 4.2, in the order it is
written there. -/
def alias_table : List (List Char × ObjectType) :=
  [ ("unknown".toList, ObjectType.UNKNOWN),
    ("unknown_movable".toList, ObjectType.UNKNOWN_MOVABLE),
    ("unknown_unmovable".toList, ObjectType.UNKNOWN_UNMOVABLE),
    ("pedestrian".toList, ObjectType.PEDESTRIAN),
    ("person_sitting".toList, ObjectType.PEDESTRIAN),
    ("bicycle".toList, ObjectType.BICYCLE),
    ("cyclist".toList, ObjectType.BICYCLE),
    ("vehicle".toList, ObjectType.VEHICLE),
    ("bus".toList, ObjectType.VEHICLE),
    ("car".toList, ObjectType.VEHICLE),
    ("tram".toList, ObjectType.VEHICLE),
    ("truck".toList, ObjectType.VEHICLE),
    ("van".toList, ObjectType.VEHICLE),
    ("dontcare".toList, ObjectType.UNKNOWN),
    ("misc".toList, ObjectType.UNKNOWN) ]

/-- The reference of the specification, `category_from_label` on an already
lower-cased label: the category listed for the label in the alias table, and
`UNKNOWN` for a label that is not listed. -/
def category_of_alias (label : List Char) : ObjectType :=
  ((alias_table.find? (fun entry => decide (entry.1 = label))).map Prod.snd).getD
    ObjectType.UNKNOWN

/-! ## Object records -/

/-- Modelled from the spec: the record type `VisualObject` (header
`visual_object.h` is missing), restricted to the fields that `util.cc`
reads or writes. `upper_left`, `lower_right` are the 2-vectors and `center`
the 3-vector of the source. -/
structure VisualObject where
  id : Int
  score : ℚ
  upper_left : ℚ × ℚ
  lower_right : ℚ × ℚ
  type : ObjectType
  type_probs : List ℚ
  alpha : ℚ
  theta : ℚ
  height : ℚ
  width : ℚ
  length : ℚ
  center : ℚ × ℚ × ℚ
  truncated_vertical : ℚ
  truncated_horizontal : ℚ
deriving DecidableEq, Repr

/-- Modelled from the spec: the value of `new VisualObject()` (the
constructor is in the missing header): numeric fields zero, category
`UNKNOWN`, and `type_probs` of fixed size `MAX_OBJECT_TYPE` initialised to
zero. -/
def VisualObject.new : VisualObject where
  id := 0
  score := 0
  upper_left := (0, 0)
  lower_right := (0, 0)
  type := ObjectType.UNKNOWN
  type_probs := List.replicate ObjectType.MAX_OBJECT_TYPE.toNat 0
  alpha := 0
  theta := 0
  height := 0
  width := 0
  length := 0
  center := (0, 0, 0)
  truncated_vertical := 0
  truncated_horizontal := 0

/-! ## Characters and decimal numbers (C library) -/

/-- The function `isspace` in the "C" locale. -/
def isspace (c : Char) : Bool :=
  c = ' ' ∨ c = '\t' ∨ c = '\n' ∨ c = '\x0b' ∨ c = '\x0c' ∨ c = '\r'

/-- The function `isdigit`. -/
def isdigit (c : Char) : Bool := '0' ≤ c ∧ c ≤ '9'

/-- Value of one decimal digit character. -/
def digit_value (c : Char) : Nat := c.toNat - '0'.toNat

/-- Value of a sequence of decimal digits, most significant first. -/
def digits_value (ds : List Char) : Nat :=
  ds.foldl (fun acc c => 10 * acc + digit_value c) 0

/-- An optional sign: whether it is `-`, and the input after it. -/
def scan_sign : List Char → Bool × List Char
  | '-' :: cs => (true, cs)
  | '+' :: cs => (false, cs)
  | cs => (false, cs)

/-- The digits of a decimal mantissa `ddd[.ddd]` at the head of the input:
integer digits, fraction digits, and the input after them. -/
def scan_mantissa (cs : List Char) : List Char × List Char × List Char :=
  match cs.dropWhile isdigit with
  | '.' :: r => (cs.takeWhile isdigit, r.takeWhile isdigit, r.dropWhile isdigit)
  | r => (cs.takeWhile isdigit, [], r)

/-- Value of a mantissa from its digits. -/
def mantissa_value (negative : Bool) (int_digits frac_digits : List Char) : ℚ :=
  let m : ℚ := (digits_value int_digits : ℚ) +
    (digits_value frac_digits : ℚ) / (10 : ℚ) ^ frac_digits.length
  if negative then -m else m

/-- The factor `10 ^ e` of an exponent part. -/
def exponent_factor (negative : Bool) (digits : List Char) : ℚ :=
  if negative then ((10 : ℚ) ^ digits_value digits)⁻¹ else (10 : ℚ) ^ digits_value digits

/-- Exceptions thrown by the standard library conversions. -/
inductive StdException where
  | invalid_argument
  | out_of_range
deriving DecidableEq, Repr

deriving instance DecidableEq for Except

/-- The function `std::stod` on decimal input: leading white space is
skipped, the longest prefix of the form `[+-]ddd[.ddd][e[+-]ddd]` is
converted, trailing characters are ignored, and `std::invalid_argument` is
thrown when no conversion can be performed. Hexadecimal, `inf` and `nan`
forms and `std::out_of_range` are outside the model. -/
def stod (str : List Char) : Except StdException ℚ :=
  let (negative, r0) := scan_sign (str.dropWhile isspace)
  let (int_digits, frac_digits, r1) := scan_mantissa r0
  if int_digits = [] ∧ frac_digits = [] then
    Except.error StdException.invalid_argument
  else
    let m := mantissa_value negative int_digits frac_digits
    match r1 with
    | c :: r2 =>
      if c = 'e' ∨ c = 'E' then
        let (eneg, r3) := scan_sign r2
        if r3.takeWhile isdigit = [] then Except.ok m
        else Except.ok (m * exponent_factor eneg (r3.takeWhile isdigit))
      else Except.ok m
    | [] => Except.ok m

/-! ## Ground-truth loader -/

/-- The lines that successive calls `std::getline(gt_file, line)` yield on a
file content: the text between newline characters; a last line without a
newline is yielded when it is not empty. `cur` holds the characters of the
current line in reverse. -/
def getlines_from : List Char → List Char → List (List Char)
  | [], cur => if cur = [] then [] else [cur.reverse]
  | c :: cs, cur =>
    if c = '\n' then cur.reverse :: getlines_from cs []
    else getlines_from cs (c :: cur)

/-- All lines of a file content. -/
def getlines (content : List Char) : List (List Char) := getlines_from content []

/-- The tokens that `std::istream_iterator<std::string>` extracts: maximal
runs of characters that are not white space. `cur` holds the current token in
reverse. -/
def tokens_from : List Char → List Char → List (List Char)
  | [], cur => if cur = [] then [] else [cur.reverse]
  | c :: cs, cur =>
    if isspace c then
      (if cur = [] then tokens_from cs [] else cur.reverse :: tokens_from cs [])
    else tokens_from cs (c :: cur)

/-- The vector `tokens` built from one line. -/
def split_tokens (line : List Char) : List (List Char) := tokens_from line []

/-- The test of line 140: `tokens.size() == 16 && tokens[3].compare("-99") != 0`. -/
def gt_accepts (tokens : List (List Char)) : Bool :=
  decide (tokens.length = 16) && decide (tokens.getD 3 [] ≠ "-99".toList)

/-- The block of lines 141-183: the record built from the tokens of an
accepted line, or the exception thrown by the first `std::stod` that fails. -/
def gt_record (tokens : List (List Char)) (detected_id : Int) :
    Except StdException VisualObject := do
  let obj := VisualObject.new
  let obj := { obj with type := get_object_type (tokens.getD 0 []) }
  let obj := { obj with alpha := ← stod (tokens.getD 14 []) }
  let ul0 ← stod (tokens.getD 4 [])
  let ul1 ← stod (tokens.getD 5 [])
  let obj := { obj with upper_left := (ul0, ul1) }
  let lr0 ← stod (tokens.getD 6 [])
  let lr1 ← stod (tokens.getD 7 [])
  let obj := { obj with lower_right := (lr0, lr1) }
  let obj := { obj with height := ← stod (tokens.getD 8 []) }
  let obj := { obj with width := ← stod (tokens.getD 9 []) }
  let obj := { obj with length := ← stod (tokens.getD 10 []) }
  let cx ← stod (tokens.getD 11 [])
  let cy ← stod (tokens.getD 12 [])
  let cz ← stod (tokens.getD 13 [])
  let obj := { obj with center := (cx, cy, cz) }
  let obj := { obj with theta := ← stod (tokens.getD 3 []) }
  let obj := { obj with score := ← stod (tokens.getD 15 []) }
  let obj := { obj with id := detected_id }
  let obj := { obj with truncated_horizontal :=
    if obj.upper_left.1 ≤ 2 ∨ obj.lower_right.1 ≥ 1918 then 1 / 2 else 0 }
  let obj := { obj with truncated_vertical :=
    if obj.upper_left.2 ≤ 2 ∨ obj.lower_right.2 ≥ 1078 then 1 / 2 else 0 }
  return obj

/-- How a call ends: it returns a status, or an exception leaves it. -/
inductive Outcome where
  | returned (status : Bool)
  | threw (e : StdException)
deriving DecidableEq, Repr

/-- The loop of lines 131-186 over the lines still to read, with the counter
`detected_id` and the caller's vector. An exception ends the call and leaves
the vector as it is at that point. -/
def load_gt_loop : List (List Char) → Int → List VisualObject →
    Outcome × List VisualObject
  | [], _, visual_objects => (Outcome.returned true, visual_objects)
  | line :: rest, detected_id, visual_objects =>
    let tokens := split_tokens line
    if gt_accepts tokens then
      match gt_record tokens detected_id with
      | Except.error e => (Outcome.threw e, visual_objects)
      | Except.ok obj => load_gt_loop rest (detected_id + 1) (visual_objects ++ [obj])
    else load_gt_loop rest detected_id visual_objects

/-- The lines read from the stream `gt_file`: those of the content of the
file at `gt_path`, and none when the stream fails to open (`none`), since
the first `getline` then fails. -/
def gt_lines : Option (List Char) → List (List Char)
  | none => []
  | some content => getlines content

/-- Source `load_gt_form_file`, util.cc lines 125-188, on the stream
`gt_file` and the caller's vector. -/
def load_gt_form_file (gt_file : Option (List Char))
    (visual_objects : List VisualObject) : Outcome × List VisualObject :=
  load_gt_loop (gt_lines gt_file) 0 visual_objects

/-- Every token that `gt_record` converts, the tokens with index 3 to 15, is
converted by `std::stod` without an exception. -/
def gt_numeric (tokens : List (List Char)) : Bool :=
  (List.range' 3 13).all (fun i => (stod (tokens.getD i [])).toBool)

/-- The lines of a list that pass the test of line 140. -/
def gt_accepted_lines (lines : List (List Char)) : List (List Char) :=
  lines.filter (fun line => gt_accepts (split_tokens line))

/-- The accepted lines up to the first one that has a token among 3..15 that
`std::stod` does not convert: the lines for which the call appends a
record. -/
def gt_converted_lines (lines : List (List Char)) : List (List Char) :=
  (gt_accepted_lines lines).takeWhile (fun line => gt_numeric (split_tokens line))

/-! ## Generic detection format: reading -/

/-- A `FILE*` opened for reading on a file that is read through to the end of
its content: the characters not read yet and the end-of-file indicator that
`feof` tests. A stream whose reads fail has no content to describe it; its
`fscanf` is `fscanf_read_error`. -/
structure FILE where
  buf : List Char
  eof : Bool
deriving DecidableEq, Repr

/-- The call `fopen(file_name, "r")` on a file with the given content; `none`
is a file that cannot be opened. -/
def fopen_read : Option (List Char) → Option FILE
  | none => none
  | some content => some { buf := content, eof := false }

/-- The conversion `%s`: white space is skipped, then the characters up to
the next white space are stored. The result is the string and the unread
input, or `none` for an input failure (end of file before any character of
the string). The bound of the destination array `char type[255]` is outside
the model. -/
def scan_string (input : List Char) : Option (List Char × List Char) :=
  let r := input.dropWhile isspace
  if r = [] then none
  else some (r.takeWhile (fun c => !isspace c), r.dropWhile (fun c => !isspace c))

/-- The conversions `%lf` and `%f` on decimal input: white space is skipped
(this also covers the blank before the conversion in the format), then the
longest input that is a prefix of `[+-]ddd[.ddd][e[+-]ddd]` is read; the
conversion fails when what was read is not a number. The result is the value,
or `none` on failure, and the unread input. Hexadecimal, `inf` and `nan`
forms are outside the model. -/
def scan_double (input : List Char) : Option ℚ × List Char :=
  let (negative, r0) := scan_sign (input.dropWhile isspace)
  let (int_digits, frac_digits, r1) := scan_mantissa r0
  if int_digits = [] ∧ frac_digits = [] then (none, r1)
  else
    let m := mantissa_value negative int_digits frac_digits
    match r1 with
    | c :: r2 =>
      if c = 'e' ∨ c = 'E' then
        let (eneg, r3) := scan_sign r2
        if r3.takeWhile isdigit = [] then (none, r3)
        else (some (m * exponent_factor eneg (r3.takeWhile isdigit)), r3.dropWhile isdigit)
      else (some m, r1)
    | [] => (some m, [])

/-- Up to `n` numeric conversions in a row, stopping at the first that
fails: the converted values and the unread input. -/
def scan_doubles : Nat → List Char → List ℚ × List Char
  | 0, input => ([], input)
  | n + 1, input =>
    match scan_double input with
    | (none, rest) => ([], rest)
    | (some q, rest) => ((q :: (scan_doubles n rest).1), (scan_doubles n rest).2)

/-- What one call of `fscanf` with the format of lines 79-80 delivers: its
return value, the string stored in `type`, and the values stored through the
17 numeric arguments, in the order of the format, as far as they were
converted. -/
structure ScanResult where
  ret : Int
  type : List Char
  values : List ℚ
deriving DecidableEq, Repr

/-- The call `fscanf(fp, "%s %lf %lf %f %lf %lf %lf %lf %f %f %f %f %f %f %f %f
%lf %lf", ...)` of lines 77-84. The return value is `EOF` (-1) when the input
ends before the string, and the number of converted fields otherwise. Every
conversion reads one character beyond what it converts, so the end-of-file
indicator is set exactly when no character is left unread. When the string
is not converted the array `type` is not written; it is modelled as empty.
Every read succeeds until the content ends; a read error is the separate
`fscanf_read_error`. -/
def fscanf (fp : FILE) : ScanResult × FILE :=
  match scan_string fp.buf with
  | none => ({ ret := -1, type := [], values := [] }, { buf := [], eof := true })
  | some (type, r) =>
    let (values, rest) := scan_doubles 17 r
    ({ ret := 1 + (values.length : Int), type := type, values := values },
      { buf := rest, eof := decide (rest = []) })

/-- The call `std::fill(v.begin(), v.begin() + n, 0)`. -/
def fill_zero (n : Nat) (v : List ℚ) : List ℚ :=
  List.replicate (min n v.length) 0 ++ v.drop n

/-- Lines 65-91: the object built in one iteration from the result of
`fscanf`. An argument whose field was not converted keeps its initial value,
that of the fresh object, or 0.0 for the locals `x1`, `y1`, `x2`, `y2`. -/
def visual_object_of_scan (s : ScanResult) : VisualObject :=
  let obj := VisualObject.new
  let obj := { obj with
    type_probs := fill_zero ObjectType.MAX_OBJECT_TYPE.toNat obj.type_probs }
  let x1 := s.values.getD 3 0
  let y1 := s.values.getD 4 0
  let x2 := s.values.getD 5 0
  let y2 := s.values.getD 6 0
  let obj := { obj with
    alpha := s.values.getD 2 obj.alpha
    height := s.values.getD 7 obj.height
    width := s.values.getD 8 obj.width
    length := s.values.getD 9 obj.length
    center := (s.values.getD 10 obj.center.1, s.values.getD 11 obj.center.2.1,
      s.values.getD 12 obj.center.2.2)
    theta := s.values.getD 13 obj.theta
    score := s.values.getD 14 obj.score
    truncated_vertical := s.values.getD 15 obj.truncated_vertical
    truncated_horizontal := s.values.getD 16 obj.truncated_horizontal }
  let obj := { obj with
    upper_left := (if x1 > 0 then x1 else 0, if y1 > 0 then y1 else 0) }
  let obj := { obj with
    lower_right := (if x2 < 1920 then x2 else 1920, if y2 < 1080 then y2 else 1080) }
  let obj := { obj with type := get_object_type s.type }
  { obj with type_probs := obj.type_probs.set obj.type.toNat obj.score }

/-- One iteration of the loop of lines 64-96: the stream and the vector
after it. -/
def load_visual_step (fp : FILE) (visual_objects : List VisualObject) :
    FILE × List VisualObject :=
  let (s, fp') := fscanf fp
  let obj := visual_object_of_scan s
  (fp', if s.ret ≥ 15 then visual_objects ++ [obj] else visual_objects)

/-- The loop `while (!feof(fp))` of lines 64-96, run for at most `fuel`
iterations: the vector when the loop ends, `none` when the iterations run
out first. -/
def load_visual_loop : Nat → FILE → List VisualObject → Option (List VisualObject)
  | 0, fp, visual_objects => if fp.eof then some visual_objects else none
  | fuel + 1, fp, visual_objects =>
    if fp.eof then some visual_objects
    else
      load_visual_loop fuel (load_visual_step fp visual_objects).1
        (load_visual_step fp visual_objects).2

/-- Source `load_visual_object_form_file`, util.cc lines 55-99, on the file
content and the caller's vector: the returned status and the vector after
the call. The loop is given one iteration more than the file has characters,
which is enough for it to end (`load_visual_object_form_file_returns`). -/
def load_visual_object_form_file (file : Option (List Char))
    (visual_objects : List VisualObject) : Option (Bool × List VisualObject) :=
  match fopen_read file with
  | none => some (false, visual_objects)
  | some fp =>
    (load_visual_loop (fp.buf.length + 1) fp visual_objects).map (fun v => (true, v))

/-! ## Generic detection format: streams whose reads fail -/

/-- Rounding to the nearest integer, ties to even: the rounding of `printf`
in the default rounding mode. -/
def round_half_even (x : ℚ) : Int :=
  let f := ⌊x⌋
  if x - f < 1 / 2 then f
  else if x - f > 1 / 2 then f + 1
  else if f % 2 = 0 then f else f + 1

/-- The value in hundredths that `%.2f` prints for the magnitude of `q`. -/
def hundredths (q : ℚ) : Nat := (round_half_even (|q| * 100)).toNat

/-- The decimal digits of `n`, most significant first, computed in at most
`fuel` steps. -/
def decimal_digits_aux : Nat → Nat → List Char
  | 0, _ => []
  | fuel + 1, n =>
    if n < 10 then [Nat.digitChar n]
    else decimal_digits_aux fuel (n / 10) ++ [Nat.digitChar (n % 10)]

/-- The decimal digits of `n` as `printf` writes them: no leading zero, and
`0` for zero. -/
def decimal_digits (n : Nat) : List Char := decimal_digits_aux (n + 1) n

/-- The conversion `%.2f`: a minus sign for a negative value, the integer
part in decimal, a point and two decimals. -/
def fprintf_2f (q : ℚ) : List Char :=
  (if q < 0 then ['-'] else []) ++ decimal_digits (hundredths q / 100) ++
    ['.', Nat.digitChar (hundredths q / 10 % 10), Nat.digitChar (hundredths q % 10)]

/-- The values printed for one record by the call of `fprintf` at lines
112-118, in order. -/
def written_values (obj : VisualObject) : List ℚ :=
  [0, 0, obj.alpha, obj.upper_left.1, obj.upper_left.2, obj.lower_right.1,
    obj.lower_right.2, obj.height, obj.width, obj.length, obj.center.1, obj.center.2.1,
    obj.center.2.2, obj.theta, obj.score]

/-- The line that `fprintf` writes for one record: the format
`"%s %.2f ... %.2f\n"` with 15 numeric conversions. -/
def write_line (obj : VisualObject) : List Char :=
  get_type_text obj.type ++
    ((written_values obj).map (fun q => ' ' :: fprintf_2f q)).flatten ++ ['\n']

/-- Source `write_visual_object_to_file`, util.cc lines 101-123: the returned
status and the content of the file after the call. `writable` tells whether
`fopen(file_name, "w")` succeeds; when it does not, nothing is written. -/
def write_visual_object_to_file (writable : Bool) (visual_objects : List VisualObject) :
    Bool × Option (List Char) :=
  if writable then (true, some ((visual_objects.map write_line).flatten))
  else (false, none)

/-! ## Reading back what was written -/

/-- The value that `%.2f` prints for `q`: `q` rounded to two decimals. -/
def round_2 (q : ℚ) : ℚ :=
  if q < 0 then -((hundredths q : ℚ) / 100) else (hundredths q : ℚ) / 100

/-- The corners of a record lie within the bounds that the reader enforces. -/
def within_frame (o : VisualObject) : Prop :=
  0 ≤ o.upper_left.1 ∧ 0 ≤ o.upper_left.2 ∧ o.lower_right.1 ≤ 1920 ∧ o.lower_right.2 ≤ 1080

/-- The record that is read back from the line written for `o`: the written
numeric fields rounded to two decimals, the category of the written label,
and the fields that are not written as in a fresh object. -/
def reloaded (o : VisualObject) : VisualObject where
  id := VisualObject.new.id
  score := round_2 o.score
  upper_left := (round_2 o.upper_left.1, round_2 o.upper_left.2)
  lower_right := (round_2 o.lower_right.1, round_2 o.lower_right.2)
  type := get_object_type (get_type_text o.type)
  type_probs := (List.replicate ObjectType.MAX_OBJECT_TYPE.toNat (0 : ℚ)).set
    (get_object_type (get_type_text o.type)).toNat (round_2 o.score)
  alpha := round_2 o.alpha
  theta := round_2 o.theta
  height := round_2 o.height
  width := round_2 o.width
  length := round_2 o.length
  center := (round_2 o.center.1, round_2 o.center.2.1, round_2 o.center.2.2)
  truncated_vertical := VisualObject.new.truncated_vertical
  truncated_horizontal := VisualObject.new.truncated_horizontal

/-! ## Derived notions -/

/-- The number of nonzero entries of `type_probs`. -/
def nonzero_probs (o : VisualObject) : Nat :=
  (o.type_probs.filter (fun p => decide (p ≠ 0))).length

/-- The canonical label of a string: `get_type_text(get_object_type(s))`. -/
def canonical_label (s : List Char) : List Char := get_type_text (get_object_type s)

/-- Two inputs of which the second is the first followed by a newline, or
both are exhausted. -/
def newline_added (a b : List Char) : Prop :=
  b = a ++ ['\n'] ∨ (a = [] ∧ b = [])

/-- Two streams of which the second has one more newline to read, or that
are the same. -/
def newline_pending (x y : FILE) : Prop :=
  x = y ∨ (y.buf = x.buf ++ ['\n'] ∧ y.eof = false ∧ (x.eof = true → x.buf = []))

/-- The fields of the line written for a record: the label and the 15 values
in `%.2f`. -/
def written_fields (obj : VisualObject) : List (List Char) :=
  get_type_text obj.type :: (written_values obj).map fprintf_2f

/-- The text of a written line without its newline. -/
def written_line_body (obj : VisualObject) : List Char :=
  get_type_text obj.type ++ ((written_values obj).map (fun q => ' ' :: fprintf_2f q)).flatten

/-! ## Renderer -/

/-- The conversion `static_cast<int>` of a floating-point value: truncation
toward zero (values outside the range of `int` are outside the model). -/
def static_cast_int (q : ℚ) : Int := if 0 ≤ q then ⌊q⌋ else ⌈q⌉

/-- What the renderer takes from outside this file, on an image type `Mat` and
a colour type `Scalar`: the OpenCV calls `cv::line(*img, pt1, pt2, color,
thickness)` and `cv::putText(*img, text, org, cv::FONT_HERSHEY_PLAIN, 0.8,
color)` as functions from the image before the call to the image after it,
the colours `COLOR_WHITE` and `COLOR_BLACK` of the missing header, and the
text that lines 244-256 (and 272-284) build in the string stream for a record,
which needs `std::sqrt` and `M_PI` and so is outside the rational model. -/
structure Canvas (Mat Scalar : Type) where
  line : Mat → Int × Int → Int × Int → Scalar → Int → Mat
  putText : Mat → List Char → Int × Int → Scalar → Mat
  COLOR_WHITE : Scalar
  COLOR_BLACK : Scalar
  stream_text : VisualObject → List Char

/-- The body of the loop of `draw_visual_objects`, lines 222-258, for one
record: the image after it. The record is only read. -/
def draw_visual_object {Mat Scalar : Type} (cv : Canvas Mat Scalar) (obj : VisualObject)
    (img : Mat) : Mat :=
  let x1 := static_cast_int obj.upper_left.1
  let y1 := static_cast_int obj.upper_left.2
  let x2 := static_cast_int obj.lower_right.1
  let y2 := static_cast_int obj.lower_right.2
  let bbox0 : Int × Int := (x1, y1)
  let bbox1 : Int × Int := (x2, y1)
  let bbox2 : Int × Int := (x2, y2)
  let bbox3 : Int × Int := (x1, y2)
  let img := cv.line img bbox0 bbox1 cv.COLOR_WHITE 1
  let img := cv.line img bbox1 bbox2 cv.COLOR_WHITE 1
  let img := cv.line img bbox2 bbox3 cv.COLOR_WHITE 1
  let img := cv.line img bbox3 bbox0 cv.COLOR_WHITE 1
  cv.putText img (cv.stream_text obj) (x1, y1 - 5) cv.COLOR_WHITE

/-- Source `draw_visual_objects`, util.cc lines 190-260: the records and the
image after the call. -/
def draw_visual_objects {Mat Scalar : Type} (cv : Canvas Mat Scalar) :
    List VisualObject → Mat → List VisualObject × Mat
  | [], img => ([], img)
  | obj :: rest, img =>
    let after := draw_visual_objects cv rest (draw_visual_object cv obj img)
    (obj :: after.1, after.2)

/-- The body of the loop of `draw_gt_objects_text`, lines 265-286, for one
record: the image after it. The record is only read. -/
def draw_gt_object_text {Mat Scalar : Type} (cv : Canvas Mat Scalar) (obj : VisualObject)
    (img : Mat) : Mat :=
  let x1 := static_cast_int obj.upper_left.1
  let y2 := static_cast_int obj.lower_right.2
  cv.putText img (cv.stream_text obj) (x1, y2 + 10) cv.COLOR_BLACK

/-- Source `draw_gt_objects_text`, util.cc lines 262-288: the records and the
image after the call. -/
def draw_gt_objects_text {Mat Scalar : Type} (cv : Canvas Mat Scalar) :
    List VisualObject → Mat → List VisualObject × Mat
  | [], img => ([], img)
  | obj :: rest, img =>
    let after := draw_gt_objects_text cv rest (draw_gt_object_text cv obj img)
    (obj :: after.1, after.2)

/-! ## Example inputs -/

/-- A ground-truth file of four lines: two records, a short line and a line
with the sentinel `-99`. -/
def gt_example_file : List Char :=
  ("Car 0 0 1.5 1.0 10 100 200 1 2 3 4 5 6 0.25 0.9\n" ++
   "foo bar\n" ++
   "car 0 0 -99 1 10 100 200 1 2 3 4 5 6 0.25 0.9\n" ++
   "van 0 0 -2 10.0 -5 1000.0 2000 1 2 3 4 5 6 0.5 0.8\n").toList

/-- The record of the first line of `gt_example_file`. -/
def gt_example_first : VisualObject where
  id := 0
  score := 9 / 10
  upper_left := (1, 10)
  lower_right := (100, 200)
  type := ObjectType.VEHICLE
  type_probs := [0, 0, 0, 0, 0, 0]
  alpha := 1 / 4
  theta := 3 / 2
  height := 1
  width := 2
  length := 3
  center := (4, 5, 6)
  truncated_vertical := 0
  truncated_horizontal := 1 / 2

/-- The record of the last line of `gt_example_file`. -/
def gt_example_second : VisualObject where
  id := 1
  score := 4 / 5
  upper_left := (10, -5)
  lower_right := (1000, 2000)
  type := ObjectType.VEHICLE
  type_probs := [0, 0, 0, 0, 0, 0]
  alpha := 1 / 2
  theta := -2
  height := 1
  width := 2
  length := 3
  center := (4, 5, 6)
  truncated_vertical := 1 / 2
  truncated_horizontal := 0

/-- A ground-truth file whose first line has 16 tokens and a token 3 that is
not a number, followed by a well-formed line. -/
def gt_malformed_file : List Char :=
  ("car 0 0 x 1 10 100 200 1 2 3 4 5 6 0.25 0.9\n" ++
   "car 0 0 1.5 1 10 100 200 1 2 3 4 5 6 0.25 0.9\n").toList

/-- A generic-format file of three lines: 18 fields with corners outside the
frame and truncation values 0.5 and 0.25, then 16 fields, then 18 fields with
truncation values 0.75 and 1. -/
def visual_example_file : List Char :=
  ("car 0 0 1.234 -5 -5 2000 2000 1 2 3 4 5 6 0.126 0.9 0.5 0.25\n" ++
   "Van 1 1 -0.125 5 5.5 200 200.555 1 2 3 4 5 6 -0.001 0.85\n" ++
   "Cyclist 0 0 0.5 100 100 300 400 1.5 0.6 1.8 1 2 10 0.25 0.7 0.75 1\n").toList

/-- The record of the first line of `visual_example_file`. -/
def visual_example_first : VisualObject where
  id := 0
  score := 9 / 10
  upper_left := (0, 0)
  lower_right := (1920, 1080)
  type := ObjectType.VEHICLE
  type_probs := [0, 0, 0, 0, 0, 9 / 10]
  alpha := 617 / 500
  theta := 63 / 500
  height := 1
  width := 2
  length := 3
  center := (4, 5, 6)
  truncated_vertical := 1 / 2
  truncated_horizontal := 1 / 4

/-- The record of the second line of `visual_example_file`. -/
def visual_example_second : VisualObject where
  id := 0
  score := 17 / 20
  upper_left := (5, 11 / 2)
  lower_right := (200, 40111 / 200)
  type := ObjectType.VEHICLE
  type_probs := [0, 0, 0, 0, 0, 17 / 20]
  alpha := -1 / 8
  theta := -1 / 1000
  height := 1
  width := 2
  length := 3
  center := (4, 5, 6)
  truncated_vertical := 0
  truncated_horizontal := 0

/-- The record of the third line of `visual_example_file`. -/
def visual_example_third : VisualObject where
  id := 0
  score := 7 / 10
  upper_left := (100, 100)
  lower_right := (300, 400)
  type := ObjectType.BICYCLE
  type_probs := [0, 0, 0, 0, 7 / 10, 0]
  alpha := 1 / 2
  theta := 1 / 4
  height := 3 / 2
  width := 3 / 5
  length := 9 / 5
  center := (1, 2, 10)
  truncated_vertical := 3 / 4
  truncated_horizontal := 1

/-- The records loaded from `visual_example_file`. -/
def visual_example_records : List VisualObject :=
  [visual_example_first, visual_example_second, visual_example_third]

/-- The text that `write_visual_object_to_file` writes for the records of
`visual_example_file`. -/
def visual_example_written : List Char :=
  ("car 0.00 0.00 1.23 0.00 0.00 1920.00 1080.00 1.00 2.00 3.00 4.00 5.00 6.00 0.13 0.90\n" ++
   "car 0.00 0.00 -0.12 5.00 5.50 200.00 200.56 1.00 2.00 3.00 4.00 5.00 6.00 -0.00 0.85\n" ++
   "bicycle 0.00 0.00 0.50 100.00 100.00 300.00 400.00 1.50 0.60 1.80 1.00 2.00 10.00 0.25 0.70\n").toList

/-- A generic-format file of one line whose score field is 0. -/
def visual_zero_score_file : List Char :=
  "car 0 0 1 10 10 20 20 1 1 1 1 1 1 1 0\n".toList

/-- A ground-truth file of three lines with 16 tokens each; the second has a
token 5 that is not a number. -/
def gt_abort_file : List Char :=
  ("Car 0 0 1.5 1.0 10 100 200 1 2 3 4 5 6 0.25 0.9\n" ++
   "car 0 0 1.5 1.0 abc 100 200 1 2 3 4 5 6 0.25 0.9\n" ++
   "car 0 0 1.5 1.0 10 100 200 1 2 3 4 5 6 0.25 0.9\n").toList

/-- A canvas for examples: the image is the list of the calls made on it, a
line as its end points and a text as its origin. -/
def canvas_log : Canvas (List (Int × Int × Int × Int)) Unit where
  line := fun img p q _ _ => img ++ [(p.1, p.2, q.1, q.2)]
  putText := fun img _ org _ => img ++ [(org.1, org.2, org.1, org.2)]
  COLOR_WHITE := ()
  COLOR_BLACK := ()
  stream_text := fun _ => []

/-! ## Type mapper: theorems -/

/-- C1: for every string `s`, `get_object_type s` is a category (never the
sentinel, and the function is total) and equals the alias table of the
specification applied to the lower-cased `s`, with `UNKNOWN` for every label
the table does not list. -/
theorem get_object_type_eq_alias_table (s : List Char) :
    get_object_type s = category_of_alias (lower s) ∧
      (get_object_type s).isCategory = true := by
  simp only [get_object_type, category_of_alias, alias_table]
  generalize lower s = t
  by_cases h1 : t = "unknown".toList
  · subst h1; decide
  by_cases h2 : t = "unknown_movable".toList
  · subst h2; decide
  by_cases h3 : t = "unknown_unmovable".toList
  · subst h3; decide
  by_cases h4 : t = "pedestrian".toList
  · subst h4; decide
  by_cases h5 : t = "bicycle".toList
  · subst h5; decide
  by_cases h6 : t = "vehicle".toList
  · subst h6; decide
  by_cases h7 : t = "bus".toList
  · subst h7; decide
  by_cases h8 : t = "car".toList
  · subst h8; decide
  by_cases h9 : t = "cyclist".toList
  · subst h9; decide
  by_cases h10 : t = "dontcare".toList
  · subst h10; decide
  by_cases h11 : t = "misc".toList
  · subst h11; decide
  by_cases h12 : t = "person_sitting".toList
  · subst h12; decide
  by_cases h13 : t = "tram".toList
  · subst h13; decide
  by_cases h14 : t = "truck".toList
  · subst h14; decide
  by_cases h15 : t = "van".toList
  · subst h15; decide
  rw [if_neg h1, if_neg h2, if_neg h3, if_neg h4, if_neg h5, if_neg h6, if_neg h7, if_neg h8,
    if_neg h9, if_neg h10, if_neg h11, if_neg h12, if_neg h13, if_neg h14, if_neg h15]
  simp only [List.find?, decide_eq_false (Ne.symm h1), decide_eq_false (Ne.symm h2),
    decide_eq_false (Ne.symm h3), decide_eq_false (Ne.symm h4), decide_eq_false (Ne.symm h5),
    decide_eq_false (Ne.symm h6), decide_eq_false (Ne.symm h7), decide_eq_false (Ne.symm h8),
    decide_eq_false (Ne.symm h9), decide_eq_false (Ne.symm h10), decide_eq_false (Ne.symm h11),
    decide_eq_false (Ne.symm h12), decide_eq_false (Ne.symm h13), decide_eq_false (Ne.symm h14),
    decide_eq_false (Ne.symm h15)]
  exact ⟨rfl, rfl⟩

/-- Lower-casing a character twice is lower-casing it once. -/
theorem tolower_idem (c : Char) : tolower (tolower c) = tolower c := by
  unfold tolower
  by_cases h : 'A' ≤ c ∧ c ≤ 'Z'
  · rw [if_pos h]
    have h1 : 65 ≤ c.toNat := h.1
    have h2 : c.toNat ≤ 90 := h.2
    have hc : c = Char.ofNat c.toNat := (Char.ofNat_toNat c).symm
    generalize c.toNat = k at h1 h2 hc
    subst hc
    interval_cases k <;> decide
  · rw [if_neg h, if_neg h]

/-- Lower-casing a string twice is lower-casing it once. -/
theorem lower_idem (s : List Char) : lower (lower s) = lower s := by
  simp [lower, Function.comp_def, tolower_idem]

/-- C2: `get_object_type` is case-insensitive: two strings that are equal
after ASCII lower-casing get the same category, which is also the category
of their common lower-cased form. -/
theorem get_object_type_case_insensitive (s t : List Char)
    (h : lower s = lower t) :
    get_object_type s = get_object_type t ∧
      get_object_type (lower s) = get_object_type t := by
  constructor
  · simp only [get_object_type, h]
  · simp only [get_object_type, lower_idem, h]

/-- Witness of C2 at "Pedestrian" and "PEDESTRIAN", whose common lower-cased
form is "pedestrian". -/
theorem get_object_type_case_insensitive_witness :
    lower "Pedestrian".toList = lower "PEDESTRIAN".toList ∧
      lower "Pedestrian".toList = "pedestrian".toList ∧
      get_object_type "Pedestrian".toList = get_object_type "PEDESTRIAN".toList ∧
      get_object_type (lower "Pedestrian".toList) = get_object_type "PEDESTRIAN".toList :=
  ⟨by decide, by decide,
    get_object_type_case_insensitive "Pedestrian".toList "PEDESTRIAN".toList (by decide)⟩

/-- C3: `get_type_text` is "car" for `VEHICLE`, "pedestrian" for
`PEDESTRIAN`, "bicycle" for `BICYCLE`, and "unknown" for every other
enumerator. -/
theorem get_type_text_table (c : ObjectType) :
    get_type_text c =
      match c with
      | ObjectType.VEHICLE => "car".toList
      | ObjectType.PEDESTRIAN => "pedestrian".toList
      | ObjectType.BICYCLE => "bicycle".toList
      | ObjectType.UNKNOWN => "unknown".toList
      | ObjectType.UNKNOWN_MOVABLE => "unknown".toList
      | ObjectType.UNKNOWN_UNMOVABLE => "unknown".toList
      | ObjectType.MAX_OBJECT_TYPE => "unknown".toList := by
  cases c <;> rfl

/-! ## Ground-truth loader: lemmas -/

/-- The fields of a record that `gt_record` returns. -/
theorem gt_record_ok (tokens : List (List Char)) (detected_id : Int) (o : VisualObject)
    (h : gt_record tokens detected_id = Except.ok o) :
    o.type = get_object_type (tokens.getD 0 []) ∧
    stod (tokens.getD 3 []) = Except.ok o.theta ∧
    stod (tokens.getD 4 []) = Except.ok o.upper_left.1 ∧
    stod (tokens.getD 5 []) = Except.ok o.upper_left.2 ∧
    stod (tokens.getD 6 []) = Except.ok o.lower_right.1 ∧
    stod (tokens.getD 7 []) = Except.ok o.lower_right.2 ∧
    stod (tokens.getD 8 []) = Except.ok o.height ∧
    stod (tokens.getD 9 []) = Except.ok o.width ∧
    stod (tokens.getD 10 []) = Except.ok o.length ∧
    stod (tokens.getD 11 []) = Except.ok o.center.1 ∧
    stod (tokens.getD 12 []) = Except.ok o.center.2.1 ∧
    stod (tokens.getD 13 []) = Except.ok o.center.2.2 ∧
    stod (tokens.getD 14 []) = Except.ok o.alpha ∧
    stod (tokens.getD 15 []) = Except.ok o.score ∧
    o.id = detected_id ∧
    o.type_probs = VisualObject.new.type_probs ∧
    o.truncated_horizontal =
      (if o.upper_left.1 ≤ 2 ∨ o.lower_right.1 ≥ 1918 then 1 / 2 else 0) ∧
    o.truncated_vertical =
      (if o.upper_left.2 ≤ 2 ∨ o.lower_right.2 ≥ 1078 then 1 / 2 else 0) := by
  unfold gt_record at h
  simp only [bind, Except.bind, pure, Except.pure] at h
  repeat' split at h
  all_goals first
    | (cases h; done)
    | (cases h
       refine ⟨rfl, ‹_›, ‹_›, ‹_›, ‹_›, ‹_›, ‹_›, ‹_›, ‹_›, ‹_›, ‹_›, ‹_›, ‹_›, ‹_›,
         rfl, rfl, ?_, ?_⟩ <;> (split <;> first | rfl | contradiction))

/-- The loop only appends to the caller's vector. -/
theorem load_gt_loop_append (lines : List (List Char)) (id : Int) (v : List VisualObject) :
    load_gt_loop lines id v =
      ((load_gt_loop lines id []).1, v ++ (load_gt_loop lines id []).2) := by
  induction lines generalizing id v with
  | nil => simp [load_gt_loop]
  | cons line rest ih =>
    simp only [load_gt_loop]
    split
    · split
      · simp
      · rename_i obj _
        rw [ih (id + 1) (v ++ [obj]), ih (id + 1) ([] ++ [obj])]
        simp
    · exact ih id v

/-- The loop on a line that is accepted and converts. -/
theorem load_gt_loop_cons_ok (line : List Char) (rest : List (List Char)) (id : Int)
    (obj : VisualObject) (ha : gt_accepts (split_tokens line) = true)
    (hr : gt_record (split_tokens line) id = Except.ok obj) :
    load_gt_loop (line :: rest) id [] =
      ((load_gt_loop rest (id + 1) []).1, obj :: (load_gt_loop rest (id + 1) []).2) := by
  simp only [load_gt_loop, ha, if_true, hr]
  rw [load_gt_loop_append]
  simp

/-- The loop on a line that is accepted and does not convert. -/
theorem load_gt_loop_cons_error (line : List Char) (rest : List (List Char)) (id : Int)
    (e : StdException) (ha : gt_accepts (split_tokens line) = true)
    (hr : gt_record (split_tokens line) id = Except.error e) :
    load_gt_loop (line :: rest) id [] = (Outcome.threw e, []) := by
  simp only [load_gt_loop, ha, if_true, hr]

/-- The loop on a line that is skipped. -/
theorem load_gt_loop_cons_skip (line : List Char) (rest : List (List Char)) (id : Int)
    (ha : gt_accepts (split_tokens line) = false) :
    load_gt_loop (line :: rest) id [] = load_gt_loop rest id [] := by
  simp [load_gt_loop, ha]

/-- Every appended record is built by `gt_record` from an accepted line. -/
theorem load_gt_loop_mem (lines : List (List Char)) (id : Int) (o : VisualObject)
    (h : o ∈ (load_gt_loop lines id []).2) :
    ∃ line ∈ lines, ∃ id', gt_accepts (split_tokens line) = true ∧
      gt_record (split_tokens line) id' = Except.ok o := by
  induction lines generalizing id with
  | nil => simp [load_gt_loop] at h
  | cons line rest ih =>
    cases ha : gt_accepts (split_tokens line) with
    | false =>
      rw [load_gt_loop_cons_skip line rest id ha] at h
      obtain ⟨l, hl, r⟩ := ih id h
      exact ⟨l, List.mem_cons_of_mem _ hl, r⟩
    | true =>
      cases hr : gt_record (split_tokens line) id with
      | error e =>
        rw [load_gt_loop_cons_error line rest id e ha hr] at h
        simp at h
      | ok obj =>
        rw [load_gt_loop_cons_ok line rest id obj ha hr] at h
        rcases List.mem_cons.mp h with h1 | h1
        · subst h1
          exact ⟨line, List.mem_cons_self _ _, id, ha, hr⟩
        · obtain ⟨l, hl, r⟩ := ih (id + 1) h1
          exact ⟨l, List.mem_cons_of_mem _ hl, r⟩

/-- The appended records are built, in order, from the first accepted lines,
the `k`-th of them with the id `j + k`. -/
theorem load_gt_loop_records (lines : List (List Char)) (j : Nat) :
    ((load_gt_loop lines (j : Int) []).2).map Except.ok =
      (((gt_accepted_lines lines).take (load_gt_loop lines (j : Int) []).2.length).enumFrom
        j).map (fun p => gt_record (split_tokens p.2) (p.1 : Int)) := by
  induction lines generalizing j with
  | nil => simp [load_gt_loop, gt_accepted_lines]
  | cons line rest ih =>
    cases ha : gt_accepts (split_tokens line) with
    | false =>
      rw [load_gt_loop_cons_skip line rest _ ha]
      have := ih j
      simpa [gt_accepted_lines, ha] using this
    | true =>
      cases hr : gt_record (split_tokens line) (j : Int) with
      | error e =>
        rw [load_gt_loop_cons_error line rest _ e ha hr]
        simp
      | ok obj =>
        rw [load_gt_loop_cons_ok line rest _ obj ha hr]
        have := ih (j + 1)
        simp only [Nat.cast_add, Nat.cast_one] at this
        simp [gt_accepted_lines, ha, hr, this]

/-- The ids of the appended records count up from the initial counter. -/
theorem load_gt_loop_ids (lines : List (List Char)) (j : Nat) :
    ((load_gt_loop lines (j : Int) []).2).map (fun o => o.id) =
      (List.range (load_gt_loop lines (j : Int) []).2.length).map
        (fun k => ((j + k : Nat) : Int)) := by
  induction lines generalizing j with
  | nil => simp [load_gt_loop]
  | cons line rest ih =>
    cases ha : gt_accepts (split_tokens line) with
    | false =>
      rw [load_gt_loop_cons_skip line rest _ ha]
      exact ih j
    | true =>
      cases hr : gt_record (split_tokens line) (j : Int) with
      | error e =>
        rw [load_gt_loop_cons_error line rest _ e ha hr]
        simp
      | ok obj =>
        rw [load_gt_loop_cons_ok line rest _ obj ha hr]
        have hid := (gt_record_ok _ _ _ hr).2.2.2.2.2.2.2.2.2.2.2.2.2.2.1
        have := ih (j + 1)
        simp only [Nat.cast_add, Nat.cast_one] at this
        simp only [List.map_cons, List.length_cons, List.range_succ_eq_map, List.map_map,
          this, hid]
        simp [Function.comp_def, Nat.add_assoc, Nat.add_comm 1]
        intro a _
        ring

/-- When every accepted line converts, the loop returns `true` and appends
one record for each accepted line. -/
theorem load_gt_loop_complete (lines : List (List Char)) (id : Int)
    (h : ∀ line ∈ lines, gt_accepts (split_tokens line) = true →
      gt_numeric (split_tokens line) = true) :
    (load_gt_loop lines id []).1 = Outcome.returned true ∧
      List.Forall₂ (fun line o => ∃ id', gt_record (split_tokens line) id' = Except.ok o)
        (gt_accepted_lines lines) (load_gt_loop lines id []).2 := by
  induction lines generalizing id with
  | nil => simp [load_gt_loop, gt_accepted_lines]
  | cons line rest ih =>
    have hrest : ∀ l ∈ rest, gt_accepts (split_tokens l) = true →
        gt_numeric (split_tokens l) = true :=
      fun l hl => h l (List.mem_cons_of_mem _ hl)
    cases ha : gt_accepts (split_tokens line) with
    | false =>
      rw [load_gt_loop_cons_skip line rest id ha]
      simpa [gt_accepted_lines, ha] using ih id hrest
    | true =>
      have hn := h line (List.mem_cons_self _ _) ha
      cases hr : gt_record (split_tokens line) id with
      | error e =>
        exfalso
        have key : ∀ s, (stod s).toBool = true → ∃ q, stod s = Except.ok q := by
          intro s hs
          cases hq : stod s with
          | error e => rw [hq] at hs; simp [Except.toBool] at hs
          | ok q => exact ⟨q, rfl⟩
        simp only [gt_numeric, List.range', List.all_cons, List.all_nil, Bool.and_true,
          Bool.and_eq_true, Nat.reduceAdd] at hn
        obtain ⟨h3, h4, h5, h6, h7, h8, h9, h10, h11, h12, h13, h14, h15⟩ := hn
        obtain ⟨q3, e3⟩ := key _ h3
        obtain ⟨q4, e4⟩ := key _ h4
        obtain ⟨q5, e5⟩ := key _ h5
        obtain ⟨q6, e6⟩ := key _ h6
        obtain ⟨q7, e7⟩ := key _ h7
        obtain ⟨q8, e8⟩ := key _ h8
        obtain ⟨q9, e9⟩ := key _ h9
        obtain ⟨q10, e10⟩ := key _ h10
        obtain ⟨q11, e11⟩ := key _ h11
        obtain ⟨q12, e12⟩ := key _ h12
        obtain ⟨q13, e13⟩ := key _ h13
        obtain ⟨q14, e14⟩ := key _ h14
        obtain ⟨q15, e15⟩ := key _ h15
        have hok : ∃ o, gt_record (split_tokens line) id = Except.ok o := by
          unfold gt_record
          simp only [bind, Except.bind, pure, Except.pure, e3, e4, e5, e6, e7, e8, e9,
            e10, e11, e12, e13, e14, e15]
          exact ⟨_, rfl⟩
        obtain ⟨o, ho⟩ := hok
        rw [ho] at hr
        cases hr
      | ok obj =>
        rw [load_gt_loop_cons_ok line rest id obj ha hr]
        obtain ⟨h1, h2⟩ := ih (id + 1) hrest
        refine ⟨h1, ?_⟩
        simp only [gt_accepted_lines, List.filter_cons, ha, if_true]
        exact List.Forall₂.cons ⟨id, hr⟩ h2

/-- The records that a call appends are those of the loop run on an empty
vector. -/
theorem load_gt_form_file_new (gt_file : Option (List Char)) (v : List VisualObject) :
    (load_gt_form_file gt_file v).2.drop v.length =
      (load_gt_loop (gt_lines gt_file) 0 []).2 := by
  unfold load_gt_form_file
  rw [load_gt_loop_append]
  simp

/-! ## Ground-truth loader: theorems -/

/-- C4, as stated, fails: the first line of `gt_malformed_file` splits into
exactly 16 tokens and its token 3 is not "-99", and so does the second, yet
the call appends no record: `std::stod` throws on the token "x" and the
exception ends the call. -/
theorem load_gt_form_file_accepted_line_without_record :
    (gt_accepted_lines (gt_lines (some gt_malformed_file))).length = 2 ∧
      load_gt_form_file (some gt_malformed_file) [] =
        (Outcome.threw StdException.invalid_argument, []) := by
  decide!

/-- C4, amended: when every line that splits into exactly 16 tokens with a
token 3 other than "-99" has tokens 3 to 15 that `std::stod` converts, the
call returns `true` and the records it appends correspond one to one, in file
order, to the lines that split into exactly 16 tokens with a token 3 other
than "-99"; lines with another token count or with token 3 equal to "-99"
contribute no record. -/
theorem load_gt_form_file_records_of_accepted (gt_file : Option (List Char))
    (v : List VisualObject)
    (h : ∀ line ∈ gt_lines gt_file, gt_accepts (split_tokens line) = true →
      gt_numeric (split_tokens line) = true) :
    ∃ recs, load_gt_form_file gt_file v = (Outcome.returned true, v ++ recs) ∧
      List.Forall₂ (fun line o => ∃ id, gt_record (split_tokens line) id = Except.ok o)
        ((gt_lines gt_file).filter
          (fun line => decide ((split_tokens line).length = 16) &&
            decide ((split_tokens line).getD 3 [] ≠ "-99".toList)))
        recs := by
  obtain ⟨h1, h2⟩ := load_gt_loop_complete (gt_lines gt_file) 0 h
  refine ⟨(load_gt_loop (gt_lines gt_file) 0 []).2, ?_, h2⟩
  unfold load_gt_form_file
  rw [load_gt_loop_append, h1]

/-- Witness of C4 (amended) on `gt_example_file`: two of its four lines are
loaded. -/
theorem load_gt_form_file_records_of_accepted_witness :
    (∀ line ∈ gt_lines (some gt_example_file), gt_accepts (split_tokens line) = true →
      gt_numeric (split_tokens line) = true) ∧
    ∃ recs, load_gt_form_file (some gt_example_file) [] =
        (Outcome.returned true, [] ++ recs) ∧
      List.Forall₂ (fun line o => ∃ id, gt_record (split_tokens line) id = Except.ok o)
        ((gt_lines (some gt_example_file)).filter
          (fun line => decide ((split_tokens line).length = 16) &&
            decide ((split_tokens line).getD 3 [] ≠ "-99".toList)))
        recs :=
  ⟨by decide!, load_gt_form_file_records_of_accepted (some gt_example_file) [] (by decide!)⟩

/-- A conversion that succeeds has a value. -/
theorem stod_toBool (s : List Char) (h : (stod s).toBool = true) :
    ∃ q, stod s = Except.ok q := by
  cases hq : stod s with
  | error e => rw [hq] at h; simp [Except.toBool] at h
  | ok q => exact ⟨q, rfl⟩

/-- When the tokens 3 to 15 convert, `gt_record` returns a record. -/
theorem gt_record_of_numeric (tokens : List (List Char)) (id : Int)
    (hn : gt_numeric tokens = true) : ∃ o, gt_record tokens id = Except.ok o := by
  simp only [gt_numeric, List.range', List.all_cons, List.all_nil, Bool.and_true,
    Bool.and_eq_true, Nat.reduceAdd] at hn
  obtain ⟨h3, h4, h5, h6, h7, h8, h9, h10, h11, h12, h13, h14, h15⟩ := hn
  obtain ⟨q3, e3⟩ := stod_toBool _ h3
  obtain ⟨q4, e4⟩ := stod_toBool _ h4
  obtain ⟨q5, e5⟩ := stod_toBool _ h5
  obtain ⟨q6, e6⟩ := stod_toBool _ h6
  obtain ⟨q7, e7⟩ := stod_toBool _ h7
  obtain ⟨q8, e8⟩ := stod_toBool _ h8
  obtain ⟨q9, e9⟩ := stod_toBool _ h9
  obtain ⟨q10, e10⟩ := stod_toBool _ h10
  obtain ⟨q11, e11⟩ := stod_toBool _ h11
  obtain ⟨q12, e12⟩ := stod_toBool _ h12
  obtain ⟨q13, e13⟩ := stod_toBool _ h13
  obtain ⟨q14, e14⟩ := stod_toBool _ h14
  obtain ⟨q15, e15⟩ := stod_toBool _ h15
  unfold gt_record
  simp only [bind, Except.bind, pure, Except.pure, e3, e4, e5, e6, e7, e8, e9,
    e10, e11, e12, e13, e14, e15]
  exact ⟨_, rfl⟩

/-- When `gt_record` returns a record, the tokens 3 to 15 convert. -/
theorem gt_numeric_of_record (tokens : List (List Char)) (id : Int) (o : VisualObject)
    (h : gt_record tokens id = Except.ok o) : gt_numeric tokens = true := by
  obtain ⟨-, h3, h4, h5, h6, h7, h8, h9, h10, h11, h12, h13, h14, h15, -⟩ :=
    gt_record_ok tokens id o h
  simp only [gt_numeric, List.range', List.all_cons, List.all_nil, Bool.and_true,
    Bool.and_eq_true, Nat.reduceAdd, h3, h4, h5, h6, h7, h8, h9, h10, h11, h12, h13, h14,
    h15, Except.toBool, and_self]

/-- The loop appends one record for each accepted line up to the first that
does not convert, and returns `true` exactly when every accepted line
converts. -/
theorem load_gt_loop_count (lines : List (List Char)) (id : Int) :
    (load_gt_loop lines id []).2.length = (gt_converted_lines lines).length ∧
      ((load_gt_loop lines id []).1 = Outcome.returned true ↔
        gt_converted_lines lines = gt_accepted_lines lines) := by
  induction lines generalizing id with
  | nil => simp [load_gt_loop, gt_converted_lines, gt_accepted_lines]
  | cons line rest ih =>
    cases ha : gt_accepts (split_tokens line) with
    | false =>
      rw [load_gt_loop_cons_skip line rest id ha]
      have := ih id
      simpa [gt_converted_lines, gt_accepted_lines, ha] using this
    | true =>
      cases hr : gt_record (split_tokens line) id with
      | error e =>
        rw [load_gt_loop_cons_error line rest id e ha hr]
        have hn : gt_numeric (split_tokens line) = false := by
          cases hnum : gt_numeric (split_tokens line) with
          | false => rfl
          | true =>
            obtain ⟨o, ho⟩ := gt_record_of_numeric _ id hnum
            rw [ho] at hr
            cases hr
        simp [gt_converted_lines, gt_accepted_lines, ha, hn]
      | ok obj =>
        rw [load_gt_loop_cons_ok line rest id obj ha hr]
        have hn := gt_numeric_of_record _ _ _ hr
        obtain ⟨h1, h2⟩ := ih (id + 1)
        simp only [gt_converted_lines, gt_accepted_lines] at h1 h2
        simp [gt_converted_lines, gt_accepted_lines, ha, hn, h1, h2]

/-- The lines that convert are the first accepted lines. -/
theorem gt_converted_lines_take (lines : List (List Char)) :
    (gt_accepted_lines lines).take (gt_converted_lines lines).length =
      gt_converted_lines lines := by
  unfold gt_converted_lines
  exact (List.prefix_iff_eq_take.mp (List.takeWhile_prefix _)).symm

/-- C5: the records appended by one call carry the ids 0, 1, 2, ... in file
order, whatever the file. The call appends exactly one record for each
accepted line up to the first accepted line that `std::stod` does not convert
(for every accepted line when the call returns `true`); the `k`-th of these
lines gives the `k`-th appended record, built with id `k`, so lines that are
skipped consume no id. -/
theorem load_gt_form_file_ids (gt_file : Option (List Char)) (v : List VisualObject) :
    ∃ recs, (load_gt_form_file gt_file v).2 = v ++ recs ∧
      recs.length = (gt_converted_lines (gt_lines gt_file)).length ∧
      ((load_gt_form_file gt_file v).1 = Outcome.returned true ↔
        gt_converted_lines (gt_lines gt_file) = gt_accepted_lines (gt_lines gt_file)) ∧
      recs.map (fun o => o.id) = (List.range recs.length).map (fun (k : Nat) => (k : Int)) ∧
      recs.map Except.ok =
        ((gt_converted_lines (gt_lines gt_file)).enum).map
          (fun p => gt_record (split_tokens p.2) (p.1 : Int)) ∧
      recs.map Except.ok =
        (((gt_accepted_lines (gt_lines gt_file)).take recs.length).enum).map
          (fun p => gt_record (split_tokens p.2) (p.1 : Int)) := by
  obtain ⟨hlen, hret⟩ := load_gt_loop_count (gt_lines gt_file) 0
  have hrec := load_gt_loop_records (gt_lines gt_file) 0
  have hrec' : ((load_gt_loop (gt_lines gt_file) 0 []).2).map Except.ok =
      (((gt_accepted_lines (gt_lines gt_file)).take
        (load_gt_loop (gt_lines gt_file) 0 []).2.length).enum).map
          (fun p => gt_record (split_tokens p.2) (p.1 : Int)) := by
    simpa [List.enum] using hrec
  refine ⟨(load_gt_loop (gt_lines gt_file) 0 []).2, ?_, hlen, ?_, ?_, ?_, hrec'⟩
  · unfold load_gt_form_file
    rw [load_gt_loop_append]
  · unfold load_gt_form_file
    rw [load_gt_loop_append]
    exact hret
  · have := load_gt_loop_ids (gt_lines gt_file) 0
    simp only [Nat.cast_zero, Nat.zero_add] at this
    exact this
  · rw [hrec', hlen, gt_converted_lines_take]

/-- Witness of C5 on `gt_example_file`: of its four lines two are accepted and
both convert, and the two records get the ids 0 and 1. -/
theorem load_gt_form_file_ids_witness :
    ((gt_lines (some gt_example_file)).length = 4 ∧
      (gt_converted_lines (gt_lines (some gt_example_file))).length = 2 ∧
      (load_gt_form_file (some gt_example_file) []).2.map (fun o => o.id) = [0, 1]) ∧
    ∃ recs, (load_gt_form_file (some gt_example_file) []).2 = [] ++ recs ∧
      recs.length = (gt_converted_lines (gt_lines (some gt_example_file))).length ∧
      ((load_gt_form_file (some gt_example_file) []).1 = Outcome.returned true ↔
        gt_converted_lines (gt_lines (some gt_example_file)) =
          gt_accepted_lines (gt_lines (some gt_example_file))) ∧
      recs.map (fun o => o.id) = (List.range recs.length).map (fun (k : Nat) => (k : Int)) ∧
      recs.map Except.ok =
        ((gt_converted_lines (gt_lines (some gt_example_file))).enum).map
          (fun p => gt_record (split_tokens p.2) (p.1 : Int)) ∧
      recs.map Except.ok =
        (((gt_accepted_lines (gt_lines (some gt_example_file))).take recs.length).enum).map
          (fun p => gt_record (split_tokens p.2) (p.1 : Int)) :=
  ⟨by decide!, load_gt_form_file_ids (some gt_example_file) []⟩

/-- C6: every record that the call appends has `truncated_horizontal` equal
to 0.5 when `upper_left.x <= 2.0` or `lower_right.x >= 1918.0` and to 0.0
otherwise, and `truncated_vertical` equal to 0.5 when `upper_left.y <= 2.0`
or `lower_right.y >= 1078.0` and to 0.0 otherwise; both lie in {0.0, 0.5}. -/
theorem load_gt_form_file_truncation (gt_file : Option (List Char))
    (v : List VisualObject) (o : VisualObject)
    (h : o ∈ (load_gt_form_file gt_file v).2.drop v.length) :
    o.truncated_horizontal =
        (if o.upper_left.1 ≤ 2 ∨ o.lower_right.1 ≥ 1918 then 1 / 2 else 0) ∧
      o.truncated_vertical =
        (if o.upper_left.2 ≤ 2 ∨ o.lower_right.2 ≥ 1078 then 1 / 2 else 0) ∧
      (o.truncated_horizontal = 0 ∨ o.truncated_horizontal = 1 / 2) ∧
      (o.truncated_vertical = 0 ∨ o.truncated_vertical = 1 / 2) := by
  rw [load_gt_form_file_new] at h
  obtain ⟨line, _, id, _, hr⟩ := load_gt_loop_mem _ _ _ h
  have hf := gt_record_ok _ _ _ hr
  have hh := hf.2.2.2.2.2.2.2.2.2.2.2.2.2.2.2.2.1
  have hv := hf.2.2.2.2.2.2.2.2.2.2.2.2.2.2.2.2.2
  refine ⟨hh, hv, ?_, ?_⟩
  · rw [hh]; split
    · exact Or.inr rfl
    · exact Or.inl rfl
  · rw [hv]; split
    · exact Or.inr rfl
    · exact Or.inl rfl

/-- Witness of C6: in `gt_example_file` the record with `upper_left.x = 1.0`
has `truncated_horizontal = 0.5`, and the record with `upper_left.x = 10.0`
and `lower_right.x = 1000.0` has `truncated_horizontal = 0.0`. -/
theorem load_gt_form_file_truncation_witness :
    (gt_example_first ∈ (load_gt_form_file (some gt_example_file) []).2.drop 0 ∧
      gt_example_second ∈ (load_gt_form_file (some gt_example_file) []).2.drop 0) ∧
    (gt_example_first.upper_left.1 = 1 ∧ gt_example_first.truncated_horizontal = 1 / 2) ∧
    (gt_example_second.upper_left.1 = 10 ∧ gt_example_second.lower_right.1 = 1000 ∧
      gt_example_second.truncated_horizontal = 0) :=
  ⟨⟨by decide!, by decide!⟩,
    ⟨rfl, (load_gt_form_file_truncation (some gt_example_file) [] gt_example_first
      (by decide!)).1.trans (by decide!)⟩,
    ⟨rfl, rfl, (load_gt_form_file_truncation (some gt_example_file) [] gt_example_second
      (by decide!)).1.trans (by decide!)⟩⟩

/-- C7: every record that the call appends is built from a line of the file
with 16 tokens `t0..t15`: its type is `get_object_type t0`, token 3 is stored
as `theta` and token 14 as `alpha`, tokens 4 to 7 are the corners of the
image bounds as converted (no clamp), tokens 8 to 10 are height, width and
length, tokens 11 to 13 the center and token 15 the score. -/
theorem load_gt_form_file_fields (gt_file : Option (List Char))
    (v : List VisualObject) (o : VisualObject)
    (h : o ∈ (load_gt_form_file gt_file v).2.drop v.length) :
    ∃ line ∈ gt_lines gt_file, ∃ t : List (List Char), t = split_tokens line ∧
      t.length = 16 ∧ t.getD 3 [] ≠ "-99".toList ∧
      o.type = get_object_type (t.getD 0 []) ∧
      stod (t.getD 3 []) = Except.ok o.theta ∧
      stod (t.getD 4 []) = Except.ok o.upper_left.1 ∧
      stod (t.getD 5 []) = Except.ok o.upper_left.2 ∧
      stod (t.getD 6 []) = Except.ok o.lower_right.1 ∧
      stod (t.getD 7 []) = Except.ok o.lower_right.2 ∧
      stod (t.getD 8 []) = Except.ok o.height ∧
      stod (t.getD 9 []) = Except.ok o.width ∧
      stod (t.getD 10 []) = Except.ok o.length ∧
      stod (t.getD 11 []) = Except.ok o.center.1 ∧
      stod (t.getD 12 []) = Except.ok o.center.2.1 ∧
      stod (t.getD 13 []) = Except.ok o.center.2.2 ∧
      stod (t.getD 14 []) = Except.ok o.alpha ∧
      stod (t.getD 15 []) = Except.ok o.score := by
  rw [load_gt_form_file_new] at h
  obtain ⟨line, hl, id, ha, hr⟩ := load_gt_loop_mem _ _ _ h
  have hf := gt_record_ok _ _ _ hr
  simp only [gt_accepts, Bool.and_eq_true, decide_eq_true_eq] at ha
  exact ⟨line, hl, _, rfl, ha.1, ha.2, hf.1, hf.2.1, hf.2.2.1, hf.2.2.2.1, hf.2.2.2.2.1,
    hf.2.2.2.2.2.1, hf.2.2.2.2.2.2.1, hf.2.2.2.2.2.2.2.1, hf.2.2.2.2.2.2.2.2.1,
    hf.2.2.2.2.2.2.2.2.2.1, hf.2.2.2.2.2.2.2.2.2.2.1, hf.2.2.2.2.2.2.2.2.2.2.2.1,
    hf.2.2.2.2.2.2.2.2.2.2.2.2.1, hf.2.2.2.2.2.2.2.2.2.2.2.2.2.1⟩

/-- Witness of C7: the last line of `gt_example_file` gives a record with
`theta` from token 3, `alpha` from token 14 and corners outside the frame
kept as they are. -/
theorem load_gt_form_file_fields_witness :
    gt_example_second ∈ (load_gt_form_file (some gt_example_file) []).2.drop 0 ∧
    ∃ line ∈ gt_lines (some gt_example_file), ∃ t : List (List Char),
      t = split_tokens line ∧
      t.length = 16 ∧ t.getD 3 [] ≠ "-99".toList ∧
      gt_example_second.type = get_object_type (t.getD 0 []) ∧
      stod (t.getD 3 []) = Except.ok gt_example_second.theta ∧
      stod (t.getD 4 []) = Except.ok gt_example_second.upper_left.1 ∧
      stod (t.getD 5 []) = Except.ok gt_example_second.upper_left.2 ∧
      stod (t.getD 6 []) = Except.ok gt_example_second.lower_right.1 ∧
      stod (t.getD 7 []) = Except.ok gt_example_second.lower_right.2 ∧
      stod (t.getD 8 []) = Except.ok gt_example_second.height ∧
      stod (t.getD 9 []) = Except.ok gt_example_second.width ∧
      stod (t.getD 10 []) = Except.ok gt_example_second.length ∧
      stod (t.getD 11 []) = Except.ok gt_example_second.center.1 ∧
      stod (t.getD 12 []) = Except.ok gt_example_second.center.2.1 ∧
      stod (t.getD 13 []) = Except.ok gt_example_second.center.2.2 ∧
      stod (t.getD 14 []) = Except.ok gt_example_second.alpha ∧
      stod (t.getD 15 []) = Except.ok gt_example_second.score :=
  ⟨by decide!,
    load_gt_form_file_fields (some gt_example_file) [] gt_example_second (by decide!)⟩

/-! ## Generic detection format: the read loop -/

/-- At most `n` values are converted by `n` conversions. -/
theorem scan_doubles_length (n : Nat) (input : List Char) :
    (scan_doubles n input).1.length ≤ n := by
  induction n generalizing input with
  | zero => simp [scan_doubles]
  | succ n ih =>
    simp only [scan_doubles]
    split
    · simp
    · simp only [List.length_cons]
      exact Nat.succ_le_succ (ih _)

/-- The return value of `fscanf` is `EOF` or between 1 and 18, and it counts
the stored values. -/
theorem fscanf_ret (fp : FILE) :
    ((fscanf fp).1.ret = -1 ∧ (fscanf fp).1.values = []) ∨
      ((fscanf fp).1.ret = 1 + ((fscanf fp).1.values.length : Int) ∧
        (fscanf fp).1.values.length ≤ 17) := by
  unfold fscanf
  split
  · exact Or.inl ⟨rfl, rfl⟩
  · exact Or.inr ⟨rfl, scan_doubles_length _ _⟩

/-- The corners of the object built from a scan. -/
theorem visual_object_of_scan_corners (s : ScanResult) :
    (visual_object_of_scan s).upper_left =
        (max (s.values.getD 3 0) 0, max (s.values.getD 4 0) 0) ∧
      (visual_object_of_scan s).lower_right =
        (min (s.values.getD 5 0) 1920, min (s.values.getD 6 0) 1080) := by
  simp only [visual_object_of_scan]
  refine ⟨Prod.ext ?_ ?_, Prod.ext ?_ ?_⟩
  · show (if s.values.getD 3 0 > 0 then s.values.getD 3 0 else 0) = _
    split
    · exact (max_eq_left (le_of_lt ‹_›)).symm
    · exact (max_eq_right (not_lt.mp ‹_›)).symm
  · show (if s.values.getD 4 0 > 0 then s.values.getD 4 0 else 0) = _
    split
    · exact (max_eq_left (le_of_lt ‹_›)).symm
    · exact (max_eq_right (not_lt.mp ‹_›)).symm
  · show (if s.values.getD 5 0 < 1920 then s.values.getD 5 0 else 1920) = _
    split
    · exact (min_eq_left (le_of_lt ‹_›)).symm
    · exact (min_eq_right (not_lt.mp ‹_›)).symm
  · show (if s.values.getD 6 0 < 1080 then s.values.getD 6 0 else 1080) = _
    split
    · exact (min_eq_left (le_of_lt ‹_›)).symm
    · exact (min_eq_right (not_lt.mp ‹_›)).symm

/-- The loop only appends, and every record it appends is the object of an
iteration whose `fscanf` returned at least 15. -/
theorem load_visual_loop_new (fuel : Nat) (fp : FILE) (v objs : List VisualObject)
    (h : load_visual_loop fuel fp v = some objs) :
    ∃ recs, objs = v ++ recs ∧ ∀ o ∈ recs, ∃ fp' : FILE,
      15 ≤ (fscanf fp').1.ret ∧ o = visual_object_of_scan (fscanf fp').1 := by
  induction fuel generalizing fp v with
  | zero =>
    simp only [load_visual_loop] at h
    split at h
    · exact ⟨[], by simpa using (Option.some.inj h).symm, by simp⟩
    · cases h
  | succ fuel ih =>
    simp only [load_visual_loop] at h
    split at h
    · exact ⟨[], by simpa using (Option.some.inj h).symm, by simp⟩
    · obtain ⟨recs, hrecs, hall⟩ := ih _ _ h
      simp only [load_visual_step] at hrecs
      split at hrecs
      · refine ⟨visual_object_of_scan (fscanf fp).1 :: recs, by simpa using hrecs, ?_⟩
        intro o ho
        rcases List.mem_cons.mp ho with h1 | h1
        · exact ⟨fp, ‹_›, h1⟩
        · exact hall o h1
      · exact ⟨recs, hrecs, hall⟩

/-! ## Generic detection format: the read loop ends -/

/-- A sign leaves a suffix of the input. -/
theorem scan_sign_suffix (cs : List Char) : (scan_sign cs).2 <:+ cs := by
  unfold scan_sign
  split
  · exact List.suffix_cons _ _
  · exact List.suffix_cons _ _
  · exact List.suffix_refl _

/-- A mantissa leaves a suffix of the input. -/
theorem scan_mantissa_suffix (cs : List Char) : (scan_mantissa cs).2.2 <:+ cs := by
  unfold scan_mantissa
  split
  · rename_i r hr
    have h1 : r <:+ cs := by
      have := List.dropWhile_suffix isdigit (l := cs)
      rw [hr] at this
      exact (List.suffix_cons _ _).trans this
    exact (List.dropWhile_suffix isdigit).trans h1
  · exact List.dropWhile_suffix isdigit

/-- A numeric conversion leaves a suffix of the input. -/
theorem scan_double_suffix (input : List Char) : (scan_double input).2 <:+ input := by
  have h0 : (scan_sign (input.dropWhile isspace)).2 <:+ input :=
    (scan_sign_suffix _).trans (List.dropWhile_suffix isspace)
  have h1 : (scan_mantissa (scan_sign (input.dropWhile isspace)).2).2.2 <:+ input :=
    (scan_mantissa_suffix _).trans h0
  unfold scan_double
  simp only []
  split
  · exact h1
  · split
    · rename_i c r2 hr
      have h2 : r2 <:+ input := by
        have h1' := h1
        rw [hr] at h1'
        exact (List.suffix_cons _ _).trans h1'
      split
      · split
        · exact (scan_sign_suffix _).trans h2
        · exact (List.dropWhile_suffix isdigit).trans ((scan_sign_suffix _).trans h2)
      · exact h1
    · exact List.nil_suffix

/-- Numeric conversions leave a suffix of the input. -/
theorem scan_doubles_suffix (n : Nat) (input : List Char) :
    (scan_doubles n input).2 <:+ input := by
  induction n generalizing input with
  | zero => exact List.suffix_refl _
  | succ n ih =>
    simp only [scan_doubles]
    split
    · rename_i rest h
      have := scan_double_suffix input
      rw [h] at this
      exact this
    · rename_i q rest h
      have := scan_double_suffix input
      rw [h] at this
      exact (ih rest).trans this

/-- A converted string is not empty and leaves less input than there was. -/
theorem scan_string_some (input t r : List Char) (h : scan_string input = some (t, r)) :
    t ≠ [] ∧ r.length < input.length := by
  unfold scan_string at h
  simp only [] at h
  split at h
  · cases h
  · rename_i hne
    have hd : (input.dropWhile isspace) ≠ [] := hne
    obtain ⟨c, cs, hc⟩ := List.exists_cons_of_ne_nil hd
    have hcs : isspace c = false := by
      have := List.head_dropWhile_not isspace input hd
      simpa [hc] using this
    simp only [Option.some.injEq, Prod.mk.injEq] at h
    obtain ⟨ht, hr⟩ := h
    rw [hc] at ht hr
    simp only [List.takeWhile_cons, List.dropWhile_cons, hcs, Bool.not_false, if_true] at ht hr
    refine ⟨by rw [← ht]; simp, ?_⟩
    have h1 : r.length ≤ cs.length := by
      rw [← hr]; exact (List.dropWhile_suffix _).length_le
    have h2 : (c :: cs).length ≤ input.length := by
      rw [← hc]; exact (List.dropWhile_suffix _).length_le
    simp only [List.length_cons] at h2
    omega

/-- One call of `fscanf` reaches the end of the file or consumes input. -/
theorem fscanf_progress (fp : FILE) :
    (fscanf fp).2.eof = true ∨ (fscanf fp).2.buf.length < fp.buf.length := by
  unfold fscanf
  split
  · exact Or.inl rfl
  · rename_i type r h
    obtain ⟨_, hlt⟩ := scan_string_some _ _ _ h
    simp only []
    by_cases hnil : (scan_doubles 17 r).2 = []
    · left; simp [hnil]
    · right
      have := (scan_doubles_suffix 17 r).length_le
      omega

/-- The loop ends within any number of iterations that exceeds the number of
unread characters. -/
theorem load_visual_loop_ends (fuel : Nat) (fp : FILE) (v : List VisualObject)
    (h : fp.eof = true ∨ fp.buf.length < fuel) :
    ∃ objs, load_visual_loop fuel fp v = some objs := by
  induction fuel generalizing fp v with
  | zero =>
    rcases h with h | h
    · exact ⟨v, by simp [load_visual_loop, h]⟩
    · exact absurd h (Nat.not_lt_zero _)
  | succ fuel ih =>
    simp only [load_visual_loop]
    split
    · exact ⟨v, rfl⟩
    · apply ih
      have hp := fscanf_progress fp
      simp only [load_visual_step]
      rcases hp with hp | hp
      · exact Or.inl hp
      · rcases h with h | h
        · contradiction
        · right; omega

/-- The call returns: with a file that opens the loop ends and the status
is `true`. -/
theorem load_visual_object_form_file_returns (content : List Char)
    (v : List VisualObject) :
    ∃ objs, load_visual_object_form_file (some content) v = some (true, objs) := by
  obtain ⟨objs, h⟩ := load_visual_loop_ends (content.length + 1)
    { buf := content, eof := false } v (Or.inr (Nat.lt_succ_self _))
  exact ⟨objs, by simp [load_visual_object_form_file, fopen_read, h]⟩

/-! ## Generic detection format: theorems on reading -/

/-- C8: every record that `load_visual_object_form_file` appends is built
from a scan with corner values `x1, y1, x2, y2` (the fourth to seventh
numeric fields): `upper_left = (max x1 0, max y1 0)` and
`lower_right = (min x2 1920, min y2 1080)`, hence `upper_left.x >= 0`,
`upper_left.y >= 0`, `lower_right.x <= 1920` and `lower_right.y <= 1080`. -/
theorem load_visual_object_form_file_bounds (file : Option (List Char))
    (v objs : List VisualObject) (status : Bool) (o : VisualObject)
    (h : load_visual_object_form_file file v = some (status, objs))
    (ho : o ∈ objs.drop v.length) :
    (∃ fp : FILE, ∃ x1 y1 x2 y2 : ℚ,
      (fscanf fp).1.values.drop 3 = x1 :: y1 :: x2 :: y2 :: (fscanf fp).1.values.drop 7 ∧
      o = visual_object_of_scan (fscanf fp).1 ∧
      o.upper_left = (max x1 0, max y1 0) ∧
      o.lower_right = (min x2 1920, min y2 1080)) ∧
    0 ≤ o.upper_left.1 ∧ 0 ≤ o.upper_left.2 ∧
    o.lower_right.1 ≤ 1920 ∧ o.lower_right.2 ≤ 1080 := by
  unfold load_visual_object_form_file at h
  cases file with
  | none =>
    simp only [fopen_read, Option.some.injEq, Prod.mk.injEq] at h
    rw [← h.2] at ho
    simp at ho
  | some content =>
    simp only [fopen_read, Option.map_eq_some', Prod.mk.injEq] at h
    obtain ⟨objs', hloop, -, rfl⟩ := h
    obtain ⟨recs, rfl, hall⟩ := load_visual_loop_new _ _ _ _ hloop
    rw [List.drop_left] at ho
    obtain ⟨fp, hret, rfl⟩ := hall o ho
    have hc := visual_object_of_scan_corners (fscanf fp).1
    have hlen : 14 ≤ (fscanf fp).1.values.length := by
      rcases fscanf_ret fp with ⟨h1, _⟩ | ⟨h1, _⟩
      · rw [h1] at hret; omega
      · rw [h1] at hret; omega
    refine ⟨⟨fp, (fscanf fp).1.values.getD 3 0, (fscanf fp).1.values.getD 4 0,
      (fscanf fp).1.values.getD 5 0, (fscanf fp).1.values.getD 6 0, ?_, rfl, hc.1, hc.2⟩,
      ?_, ?_, ?_, ?_⟩
    · generalize (fscanf fp).1.values = l at hlen
      match l, hlen with
      | _ :: _ :: _ :: _ :: _ :: _ :: _ :: _, _ => rfl
    · rw [hc.1]; exact le_max_right _ _
    · rw [hc.1]; exact le_max_right _ _
    · rw [hc.2]; exact min_le_right _ _
    · rw [hc.2]; exact min_le_right _ _

/-- Witness of C8: the first line of `visual_example_file` has `x1 = -5` and
`x2 = 2000`, and loads as `upper_left.x = 0` and `lower_right.x = 1920`. -/
theorem load_visual_object_form_file_bounds_witness :
    (load_visual_object_form_file (some visual_example_file) [] =
        some (true, visual_example_records) ∧
      visual_example_first ∈ visual_example_records.drop 0) ∧
    (fscanf { buf := visual_example_file, eof := false }).1.values.drop 3 =
      [-5, -5, 2000, 2000, 1, 2, 3, 4, 5, 6, 63 / 500, 9 / 10, 1 / 2, 1 / 4] ∧
    visual_example_first.upper_left.1 = 0 ∧ visual_example_first.lower_right.1 = 1920 ∧
    0 ≤ visual_example_first.upper_left.1 ∧ visual_example_first.lower_right.1 ≤ 1920 :=
  ⟨⟨by decide!, by decide!⟩, by decide!, rfl, rfl,
    (load_visual_object_form_file_bounds (some visual_example_file) []
      visual_example_records true visual_example_first (by decide!) (by decide!)).2.1,
    (load_visual_object_form_file_bounds (some visual_example_file) []
      visual_example_records true visual_example_first (by decide!) (by decide!)).2.2.2.1⟩

/-- C9: one iteration of the read loop appends the scanned object exactly
when `fscanf` returned at least 15 (of at most 18); with a smaller return
value the vector is unchanged, and a scan at the end of the file returns
`EOF` and appends nothing. -/
theorem load_visual_step_appends (fp : FILE) (objs : List VisualObject) :
    (((load_visual_step fp objs).2 = objs ++ [visual_object_of_scan (fscanf fp).1] ∧
        15 ≤ (fscanf fp).1.ret ∧ (fscanf fp).1.ret ≤ 18) ∨
      ((load_visual_step fp objs).2 = objs ∧ (fscanf fp).1.ret < 15)) ∧
    (fscanf { buf := [], eof := fp.eof }).1.ret = -1 ∧
    (load_visual_step { buf := [], eof := fp.eof } objs).2 = objs := by
  refine ⟨?_, rfl, rfl⟩
  by_cases h : 15 ≤ (fscanf fp).1.ret
  · left
    refine ⟨by simp [load_visual_step, h], h, ?_⟩
    rcases fscanf_ret fp with ⟨h1, _⟩ | ⟨h1, h2⟩
    · rw [h1]; decide
    · rw [h1]; omega
  · right
    exact ⟨by simp [load_visual_step, h], not_le.mp h⟩

/-! ## Reading back what was written: lemmas -/

/-- A decimal digit character is a digit with its value. -/
theorem digitChar_spec (m : Nat) (h : m < 10) :
    isdigit (Nat.digitChar m) = true ∧ digit_value (Nat.digitChar m) = m := by
  interval_cases m <;> decide

/-- Appending one digit to a digit sequence. -/
theorem digits_value_append (ds : List Char) (d : Char) :
    digits_value (ds ++ [d]) = 10 * digits_value ds + digit_value d := by
  simp [digits_value, List.foldl_append]

/-- With enough steps the decimal digits of `n` are a non-empty run of digits
whose value is `n`. -/
theorem decimal_digits_aux_value (fuel n : Nat) (h : n < fuel) :
    digits_value (decimal_digits_aux fuel n) = n ∧
      decimal_digits_aux fuel n ≠ [] ∧
      ∀ c ∈ decimal_digits_aux fuel n, isdigit c = true := by
  induction fuel generalizing n with
  | zero => exact absurd h (Nat.not_lt_zero n)
  | succ fuel ih =>
    unfold decimal_digits_aux
    by_cases hn : n < 10
    · rw [if_pos hn]
      have hd := digitChar_spec n hn
      refine ⟨?_, List.cons_ne_nil _ _, ?_⟩
      · simp only [digits_value, List.foldl]
        rw [hd.2]; omega
      · intro c hc
        rw [List.mem_singleton.mp hc]; exact hd.1
    · rw [if_neg hn]
      have hd := digitChar_spec (n % 10) (Nat.mod_lt n (by decide))
      obtain ⟨h1, _, h3⟩ := ih (n / 10) (by omega)
      refine ⟨?_, by simp, ?_⟩
      · rw [digits_value_append, h1, hd.2]; omega
      · intro c hc
        rcases List.mem_append.mp hc with hc | hc
        · exact h3 c hc
        · rw [List.mem_singleton.mp hc]; exact hd.1

/-- The decimal digits of a number: a non-empty run of digits with its value. -/
theorem decimal_digits_spec (n : Nat) :
    decimal_digits n ≠ [] ∧ (∀ c ∈ decimal_digits n, isdigit c = true) ∧
      digits_value (decimal_digits n) = n := by
  obtain ⟨h1, h2, h3⟩ := decimal_digits_aux_value (n + 1) n (Nat.lt_succ_self n)
  exact ⟨h2, h3, h1⟩

/-- Reading a run of digits that is followed by another character. -/
theorem takeWhile_digits (ds : List Char) (c : Char) (r : List Char)
    (hds : ∀ d ∈ ds, isdigit d = true) (hc : isdigit c = false) :
    (ds ++ c :: r).takeWhile isdigit = ds ∧ (ds ++ c :: r).dropWhile isdigit = c :: r := by
  induction ds with
  | nil => simp [List.takeWhile, List.dropWhile, hc]
  | cons d ds ih =>
    have hd := hds d (List.mem_cons_self _ _)
    have ih' := ih (fun x hx => hds x (List.mem_cons_of_mem _ hx))
    simp [List.takeWhile, List.dropWhile, hd, ih'.1, ih'.2]

/-- A digit is neither a sign nor white space nor a point. -/
theorem isdigit_ne (c : Char) (h : isdigit c = true) :
    c ≠ '-' ∧ c ≠ '+' ∧ c ≠ '.' ∧ isspace c = false := by
  refine ⟨?_, ?_, ?_, ?_⟩
  · rintro rfl; exact absurd h (by decide)
  · rintro rfl; exact absurd h (by decide)
  · rintro rfl; exact absurd h (by decide)
  · cases hs : isspace c with
    | false => rfl
    | true =>
      simp only [isspace, Bool.decide_or, Bool.or_eq_true, decide_eq_true_eq] at hs
      rcases hs with rfl | rfl | rfl | rfl | rfl | rfl <;> exact absurd h (by decide)

/-- A sign is not read from input that starts with a digit. -/
theorem scan_sign_digit (c : Char) (r : List Char) (h : isdigit c = true) :
    scan_sign (c :: r) = (false, c :: r) := by
  obtain ⟨h1, h2, _, _⟩ := isdigit_ne c h
  unfold scan_sign
  split
  · rename_i heq; exact absurd (List.cons.inj heq).1 h1
  · rename_i heq; exact absurd (List.cons.inj heq).1 h2
  · rfl

/-- The mantissa of input `ddd.dd` followed by a character that is no digit. -/
theorem scan_mantissa_fixed (ds : List Char) (d1 d2 c : Char) (r : List Char)
    (hds : ∀ d ∈ ds, isdigit d = true) (h1 : isdigit d1 = true) (h2 : isdigit d2 = true)
    (hc : isdigit c = false) :
    scan_mantissa (ds ++ '.' :: d1 :: d2 :: c :: r) = (ds, [d1, d2], c :: r) := by
  have hp := takeWhile_digits ds '.' (d1 :: d2 :: c :: r) hds (by decide)
  have hq := takeWhile_digits [d1, d2] c r
    (by intro d hd; simp at hd; rcases hd with rfl | rfl <;> assumption) hc
  simp only [List.cons_append, List.nil_append] at hq
  unfold scan_mantissa
  rw [hp.2]
  simp only [hp.1, hq.1, hq.2]

/-- The conversion `%lf` reads back what `%.2f` printed: after a blank, the
text of `q` followed by a blank or a newline converts to `round_2 q` and
leaves the input from that character on. -/
theorem scan_double_fprintf_2f (q : ℚ) (c : Char) (r : List Char)
    (hc : c = ' ' ∨ c = '\n') :
    scan_double (' ' :: (fprintf_2f q ++ c :: r)) = (some (round_2 q), c :: r) := by
  obtain ⟨hne, hdig, hval⟩ := decimal_digits_spec (hundredths q / 100)
  have hd1 := digitChar_spec (hundredths q / 10 % 10) (Nat.mod_lt _ (by decide))
  have hd2 := digitChar_spec (hundredths q % 10) (Nat.mod_lt _ (by decide))
  have hcd : isdigit c = false := by rcases hc with rfl | rfl <;> decide
  have hce : ¬ (c = 'e' ∨ c = 'E') := by rcases hc with rfl | rfl <;> decide
  obtain ⟨d0, ds, hds⟩ := List.exists_cons_of_ne_nil hne
  have hd0 : isdigit d0 = true := hdig d0 (by rw [hds]; exact List.mem_cons_self _ _)
  have hm := scan_mantissa_fixed (decimal_digits (hundredths q / 100)) _ _ c r hdig
    hd1.1 hd2.1 hcd
  have hsum : ((hundredths q / 100 : Nat) : ℚ) +
      ((10 * (hundredths q / 10 % 10) + hundredths q % 10 : Nat) : ℚ) / 100 =
      (hundredths q : ℚ) / 100 := by
    have : hundredths q = 100 * (hundredths q / 100) + (10 * (hundredths q / 10 % 10) +
        hundredths q % 10) := by omega
    conv_rhs => rw [this]
    push_cast
    ring
  have hfrac : digits_value [Nat.digitChar (hundredths q / 10 % 10),
      Nat.digitChar (hundredths q % 10)] = 10 * (hundredths q / 10 % 10) + hundredths q % 10 := by
    simp [digits_value, hd1.2, hd2.2]
  unfold scan_double fprintf_2f
  by_cases hq : q < 0
  · simp only [hq, if_true, List.cons_append, List.nil_append, List.append_assoc]
    have h1 : List.dropWhile isspace (' ' :: '-' :: (decimal_digits (hundredths q / 100) ++
        '.' :: Nat.digitChar (hundredths q / 10 % 10) :: Nat.digitChar (hundredths q % 10) ::
          c :: r)) = '-' :: (decimal_digits (hundredths q / 100) ++
        '.' :: Nat.digitChar (hundredths q / 10 % 10) :: Nat.digitChar (hundredths q % 10) ::
          c :: r) := by
      simp [List.dropWhile, isspace]
    rw [h1]
    simp only [scan_sign, hm, hne, false_and, if_false, hce]
    simp only [mantissa_value, hval, hfrac, if_true, round_2, hq, List.length_cons,
      List.length_nil]
    norm_num
    rw [← hsum]; push_cast; ring
  · simp only [hq, if_false, List.nil_append, List.append_assoc, List.cons_append]
    have hsp0 : isspace d0 = false := (isdigit_ne d0 hd0).2.2.2
    have h1 : List.dropWhile isspace (' ' :: (decimal_digits (hundredths q / 100) ++
        '.' :: Nat.digitChar (hundredths q / 10 % 10) :: Nat.digitChar (hundredths q % 10) ::
          c :: r)) = decimal_digits (hundredths q / 100) ++
        '.' :: Nat.digitChar (hundredths q / 10 % 10) :: Nat.digitChar (hundredths q % 10) ::
          c :: r := by
      rw [hds, List.cons_append,
        List.dropWhile_cons_of_pos (by decide : isspace ' ' = true),
        List.dropWhile_cons_of_neg (by simp [hsp0])]
    have h2 : scan_sign (decimal_digits (hundredths q / 100) ++
        '.' :: Nat.digitChar (hundredths q / 10 % 10) :: Nat.digitChar (hundredths q % 10) ::
          c :: r) = (false, decimal_digits (hundredths q / 100) ++
        '.' :: Nat.digitChar (hundredths q / 10 % 10) :: Nat.digitChar (hundredths q % 10) ::
          c :: r) := by
      rw [hds]
      exact scan_sign_digit d0 _ hd0
    rw [h1]
    simp only [h2, hm, hne, false_and, if_false, hce]
    simp only [mantissa_value, hval, hfrac, round_2, hq, List.length_cons,
      List.length_nil]
    norm_num
    rw [← hsum]; push_cast; ring

/-- The conversion `%s` reads back a label that `get_type_text` produced and
that a blank follows. -/
theorem scan_string_label (t : ObjectType) (r : List Char) :
    scan_string (get_type_text t ++ ' ' :: r) = some (get_type_text t, ' ' :: r) := by
  cases t <;> rfl

/-- A numeric conversion fails on a newline followed by a label and leaves
the label unread. -/
theorem scan_double_label (t : ObjectType) (r : List Char) :
    scan_double ('\n' :: (get_type_text t ++ r)) = (none, get_type_text t ++ r) := by
  cases t <;> rfl

/-- The text of the lines written for a list of records. -/
theorem written_lines_cons (o : VisualObject) (rs : List VisualObject) :
    ((o :: rs).map write_line).flatten = write_line o ++ (rs.map write_line).flatten := by
  simp

/-- A numeric conversion fails on a newline followed by written lines, or by
the end of the file, and leaves the lines unread. -/
theorem scan_double_written_lines (rs : List VisualObject) :
    scan_double ('\n' :: (rs.map write_line).flatten) =
      (none, (rs.map write_line).flatten) := by
  cases rs with
  | nil => rfl
  | cons o rs =>
    rw [written_lines_cons]
    unfold write_line
    rw [List.append_assoc, List.append_assoc]
    exact scan_double_label _ _

/-- Numeric conversions read back the values that `%.2f` printed on a line. -/
theorem scan_doubles_written (qs : List ℚ) (n : Nat) (tail rest : List Char)
    (hn : qs.length < n) (hfail : scan_double ('\n' :: tail) = (none, rest)) :
    scan_doubles n ((qs.map (fun q => ' ' :: fprintf_2f q)).flatten ++ '\n' :: tail) =
      (qs.map round_2, rest) := by
  induction qs generalizing n with
  | nil =>
    obtain ⟨m, rfl⟩ : ∃ m, n = m + 1 := ⟨n - 1, by simp at hn; omega⟩
    simp [scan_doubles, hfail]
  | cons q qs ih =>
    obtain ⟨m, rfl⟩ : ∃ m, n = m + 1 := ⟨n - 1, by simp at hn; omega⟩
    have hm : qs.length < m := by simp at hn; omega
    have hstep : ∃ c r, (c = ' ' ∨ c = '\n') ∧
        (qs.map (fun q => ' ' :: fprintf_2f q)).flatten ++ '\n' :: tail = c :: r := by
      cases qs with
      | nil => exact ⟨'\n', tail, Or.inr rfl, rfl⟩
      | cons q' qs' =>
        exact ⟨' ', fprintf_2f q' ++ ((qs'.map (fun q => ' ' :: fprintf_2f q)).flatten ++
          '\n' :: tail), Or.inl rfl, by simp⟩
    obtain ⟨c, r, hc, hr⟩ := hstep
    have h1 : ((q :: qs).map (fun q => ' ' :: fprintf_2f q)).flatten ++ '\n' :: tail =
        ' ' :: (fprintf_2f q ++ c :: r) := by
      simp [← hr]
    rw [h1]
    simp only [scan_doubles, scan_double_fprintf_2f q c r hc]
    rw [← hr, ih m hm]
    simp

/-- One call of `fscanf` on a written line followed by further written lines
converts 16 fields, the label and the 15 printed values, and stops in front
of the next line. -/
theorem fscanf_write_line (o : VisualObject) (rs : List VisualObject) (e : Bool) :
    fscanf { buf := write_line o ++ (rs.map write_line).flatten, eof := e } =
      ({ ret := 16, type := get_type_text o.type,
         values := (written_values o).map round_2 },
       { buf := (rs.map write_line).flatten,
         eof := decide ((rs.map write_line).flatten = []) }) := by
  have hline : write_line o ++ (rs.map write_line).flatten =
      get_type_text o.type ++ ' ' :: (fprintf_2f 0 ++
        (((written_values o).tail.map (fun q => ' ' :: fprintf_2f q)).flatten ++
          '\n' :: (rs.map write_line).flatten)) := by
    simp [write_line, written_values]
  have hs := scan_doubles_written (written_values o) 17 (rs.map write_line).flatten
    (rs.map write_line).flatten (by simp [written_values]) (scan_double_written_lines rs)
  have hbuf : ' ' :: (fprintf_2f 0 ++
        (((written_values o).tail.map (fun q => ' ' :: fprintf_2f q)).flatten ++
          '\n' :: (rs.map write_line).flatten)) =
      ((written_values o).map (fun q => ' ' :: fprintf_2f q)).flatten ++
        '\n' :: (rs.map write_line).flatten := by
    simp [written_values]
  unfold fscanf
  simp only [hline, scan_string_label]
  rw [hbuf, hs]
  simp [written_values]

/-- Rounding does not pass an integer bound. -/
theorem round_half_even_le (x : ℚ) (m : Int) (h : x ≤ (m : ℚ)) :
    round_half_even x ≤ m := by
  have hf : ⌊x⌋ ≤ m := by
    have := Int.floor_le x
    exact_mod_cast (this.trans h)
  unfold round_half_even
  simp only []
  have hstep : x - (⌊x⌋ : ℚ) ≥ 1 / 2 → ⌊x⌋ + 1 ≤ m := by
    intro hx
    have h1 : (⌊x⌋ : ℚ) < (m : ℚ) := by linarith
    have h2 : ⌊x⌋ < m := by exact_mod_cast h1
    omega
  split
  · exact hf
  · rename_i h1
    split
    · exact hstep (not_lt.mp h1)
    · split
      · exact hf
      · exact hstep (not_lt.mp h1)

/-- Rounding moves a value by at most one half. -/
theorem round_half_even_close (x : ℚ) : |((round_half_even x : Int) : ℚ) - x| ≤ 1 / 2 := by
  have h1 := Int.floor_le x
  have h2 := Int.lt_floor_add_one x
  unfold round_half_even
  simp only []
  rw [abs_le]
  split
  · constructor <;> linarith
  · rename_i hlt
    have hge := not_lt.mp hlt
    split
    · push_cast; constructor <;> linarith
    · rename_i hgt
      have hle := not_lt.mp hgt
      split
      · constructor <;> linarith
      · push_cast; constructor <;> linarith

/-- Rounding a value that is not negative gives a value that is not negative. -/
theorem round_half_even_nonneg (x : ℚ) (h : 0 ≤ x) : 0 ≤ round_half_even x := by
  have hf : 0 ≤ ⌊x⌋ := Int.floor_nonneg.mpr h
  unfold round_half_even
  simp only []
  split
  · exact hf
  · split
    · omega
    · split
      · exact hf
      · omega

/-- The value that `%.2f` prints differs from the value printed by at most
half a hundredth. -/
theorem round_2_close (q : ℚ) : |round_2 q - q| ≤ 1 / 200 := by
  have hnn : 0 ≤ round_half_even (|q| * 100) :=
    round_half_even_nonneg _ (by positivity)
  have hH : ((hundredths q : Nat) : ℚ) = ((round_half_even (|q| * 100) : Int) : ℚ) := by
    unfold hundredths
    have : ((round_half_even (|q| * 100)).toNat : Int) = round_half_even (|q| * 100) :=
      Int.toNat_of_nonneg hnn
    exact_mod_cast this
  have hc := round_half_even_close (|q| * 100)
  rw [← hH, abs_le] at hc
  unfold round_2
  rw [abs_le]
  split
  · rename_i hq
    rw [abs_of_neg hq] at hc
    constructor <;> linarith [hc.1, hc.2]
  · rename_i hq
    rw [abs_of_nonneg (not_lt.mp hq)] at hc
    constructor <;> linarith [hc.1, hc.2]

/-- Rounding to two decimals keeps a value that is not negative so. -/
theorem round_2_nonneg (q : ℚ) (h : 0 ≤ q) : 0 ≤ round_2 q := by
  unfold round_2
  rw [if_neg (not_lt.mpr h)]
  positivity

/-- Rounding to two decimals does not pass a bound that is a natural number. -/
theorem round_2_le (q : ℚ) (n : Nat) (h : q ≤ (n : ℚ)) : round_2 q ≤ (n : ℚ) := by
  unfold round_2
  split
  · have : (0 : ℚ) ≤ (hundredths q : ℚ) / 100 := by positivity
    have hn : (0 : ℚ) ≤ (n : ℚ) := Nat.cast_nonneg n
    linarith
  · rename_i hq
    have hq' : 0 ≤ q := not_lt.mp hq
    have hx : |q| * 100 ≤ ((n * 100 : Nat) : Int) := by
      rw [abs_of_nonneg hq']
      push_cast
      linarith
    have hr := round_half_even_le (|q| * 100) ((n * 100 : Nat) : Int) hx
    have hH : hundredths q ≤ n * 100 := by
      unfold hundredths
      omega
    have : (hundredths q : ℚ) ≤ (n : ℚ) * 100 := by exact_mod_cast hH
    linarith

/-- The object built from the scan of a written line. -/
theorem visual_object_of_scan_written (o : VisualObject) (h : within_frame o) :
    visual_object_of_scan
      { ret := 16, type := get_type_text o.type,
        values := (written_values o).map round_2 } = reloaded o := by
  obtain ⟨h1, h2, h3, h4⟩ := h
  have a1 := round_2_nonneg _ h1
  have a2 := round_2_nonneg _ h2
  have a3 := round_2_le o.lower_right.1 1920 (by exact_mod_cast h3)
  have a4 := round_2_le o.lower_right.2 1080 (by exact_mod_cast h4)
  have b1 : (if round_2 o.upper_left.1 > 0 then round_2 o.upper_left.1 else 0) =
      round_2 o.upper_left.1 := by
    split
    · rfl
    · rename_i hn; exact le_antisymm a1 (not_lt.mp hn)
  have b2 : (if round_2 o.upper_left.2 > 0 then round_2 o.upper_left.2 else 0) =
      round_2 o.upper_left.2 := by
    split
    · rfl
    · rename_i hn; exact le_antisymm a2 (not_lt.mp hn)
  have b3 : (if round_2 o.lower_right.1 < 1920 then round_2 o.lower_right.1 else 1920) =
      round_2 o.lower_right.1 := by
    split
    · rfl
    · rename_i hn; exact le_antisymm (not_lt.mp hn) (by exact_mod_cast a3)
  have b4 : (if round_2 o.lower_right.2 < 1080 then round_2 o.lower_right.2 else 1080) =
      round_2 o.lower_right.2 := by
    split
    · rfl
    · rename_i hn; exact le_antisymm (not_lt.mp hn) (by exact_mod_cast a4)
  simp only [visual_object_of_scan, written_values, List.map, List.getD_cons_succ,
    List.getD_cons_zero, b1, b2, b3, b4, reloaded]
  rfl

/-- A written line is not empty. -/
theorem write_line_length_pos (o : VisualObject) : 0 < (write_line o).length := by
  simp [write_line]

/-- The read loop on the text written for a list of records whose corners
lie within the frame appends the reloaded records, in order. -/
theorem load_visual_loop_written (rs : List VisualObject)
    (hrs : ∀ o ∈ rs, within_frame o) (fuel : Nat) (acc : List VisualObject)
    (hf : ((rs.map write_line).flatten).length < fuel) :
    load_visual_loop fuel { buf := (rs.map write_line).flatten, eof := false } acc =
      some (acc ++ rs.map reloaded) := by
  induction rs generalizing fuel acc with
  | nil =>
    obtain ⟨m, rfl⟩ : ∃ m, fuel = m + 1 := ⟨fuel - 1, by omega⟩
    have hstep : load_visual_step { buf := [], eof := false } acc =
        ({ buf := [], eof := true }, acc) := rfl
    simp only [List.map_nil, List.flatten_nil, load_visual_loop, Bool.false_eq_true,
      if_false, hstep, List.append_nil]
    cases m <;> simp [load_visual_loop]
  | cons o rs ih =>
    obtain ⟨m, rfl⟩ : ∃ m, fuel = m + 1 := ⟨fuel - 1, by omega⟩
    have ho : within_frame o := hrs o (List.mem_cons_self _ _)
    have hrs' : ∀ x ∈ rs, within_frame x := fun x hx => hrs x (List.mem_cons_of_mem _ hx)
    have hlen : ((rs.map write_line).flatten).length < m := by
      rw [written_lines_cons, List.length_append] at hf
      have := write_line_length_pos o
      omega
    have hstep : load_visual_step
        { buf := ((o :: rs).map write_line).flatten, eof := false } acc =
        ({ buf := (rs.map write_line).flatten,
           eof := decide ((rs.map write_line).flatten = []) }, acc ++ [reloaded o]) := by
      rw [written_lines_cons]
      simp only [load_visual_step, fscanf_write_line, visual_object_of_scan_written o ho]
      simp
    simp only [load_visual_loop, Bool.false_eq_true, if_false, hstep]
    cases rs with
    | nil =>
      cases m <;> simp [load_visual_loop]
    | cons o' rs' =>
      have hne : ((o' :: rs').map write_line).flatten ≠ [] := by
        intro h0
        have := write_line_length_pos o'
        rw [written_lines_cons] at h0
        have h1 := congrArg List.length h0
        simp only [List.length_append, List.length_nil] at h1
        omega
      rw [decide_eq_false hne, ih hrs' m (acc ++ [reloaded o]) hlen]
      simp

/-- Every record that `load_visual_object_form_file` appends has its corners
within the frame. -/
theorem load_visual_object_form_file_within_frame (content : List Char)
    (objs : List VisualObject)
    (h : load_visual_object_form_file (some content) [] = some (true, objs)) :
    ∀ o ∈ objs, within_frame o := by
  simp only [load_visual_object_form_file, fopen_read, Option.map_eq_some',
    Prod.mk.injEq, true_and, exists_eq_right] at h
  obtain ⟨recs, rfl, hall⟩ := load_visual_loop_new _ _ _ _ h
  intro o ho
  obtain ⟨fp, -, rfl⟩ := hall o ho
  have hc := visual_object_of_scan_corners (fscanf fp).1
  refine ⟨?_, ?_, ?_, ?_⟩
  · rw [hc.1]; exact le_max_right _ _
  · rw [hc.1]; exact le_max_right _ _
  · rw [hc.2]; exact min_le_right _ _
  · rw [hc.2]; exact min_le_right _ _

/-- Reading the text written for records whose corners lie within the frame
gives the reloaded records. -/
theorem load_written (rs : List VisualObject) (hrs : ∀ o ∈ rs, within_frame o) :
    load_visual_object_form_file (write_visual_object_to_file true rs).2 [] =
      some (true, rs.map reloaded) := by
  simp only [write_visual_object_to_file, if_true, load_visual_object_form_file, fopen_read]
  rw [load_visual_loop_written rs hrs _ [] (Nat.lt_succ_self _)]
  simp

/-! ## Reading back what was written: theorems -/

/-- C10, as stated, fails: the records loaded from `visual_example_file` have
the truncation values (0.5, 0.25), (0, 0) and (0.75, 1); after writing the
loaded records and loading the written file, the truncation fields of all
three records are those of a fresh object, so they are not the loaded values
rounded to two decimals. -/
theorem load_write_load_drops_truncation :
    load_visual_object_form_file (some visual_example_file) [] =
        some (true, visual_example_records) ∧
      write_visual_object_to_file true visual_example_records =
        (true, some visual_example_written) ∧
      (load_visual_object_form_file (some visual_example_written) []).map
          (fun r => r.2.map (fun o => (o.truncated_vertical, o.truncated_horizontal))) =
        some (List.replicate 3
          (VisualObject.new.truncated_vertical, VisualObject.new.truncated_horizontal)) ∧
      visual_example_records.map
          (fun o => (round_2 o.truncated_vertical, round_2 o.truncated_horizontal)) =
        [(1 / 2, 1 / 4), (0, 0), (3 / 4, 1)] := by
  decide!

/-- C10, amended: for every generic-format file, loading it, writing the
records and loading the written file yields the same number of records in the
same order; in each, alpha, the corners, height, width, length, the center,
theta and score are the originally loaded values rounded to two decimals
(`reloaded`, with `round_2` within half a hundredth of its argument), while
the two truncation fields, which are not written, are those of a fresh
object. -/
theorem load_write_load (content : List Char) :
    (∃ rs text, load_visual_object_form_file (some content) [] = some (true, rs) ∧
      write_visual_object_to_file true rs = (true, some text) ∧
      load_visual_object_form_file (some text) [] = some (true, rs.map reloaded) ∧
      (rs.map reloaded).length = rs.length) ∧
    ∀ q : ℚ, |round_2 q - q| ≤ 1 / 200 ∧ ∃ n : Int, round_2 q = (n : ℚ) / 100 := by
  refine ⟨?_, fun q => ⟨round_2_close q, ?_⟩⟩
  · obtain ⟨rs, hrs⟩ := load_visual_object_form_file_returns content []
    have hw := load_written rs (load_visual_object_form_file_within_frame content rs hrs)
    refine ⟨rs, (rs.map write_line).flatten, hrs, ?_, ?_, by simp⟩
    · simp [write_visual_object_to_file]
    · simpa [write_visual_object_to_file] using hw
  · unfold round_2
    split
    · exact ⟨-(hundredths q : Int), by push_cast; ring⟩
    · exact ⟨(hundredths q : Int), by push_cast; ring⟩

/-! ## Category scores -/

/-- A property of both branches of a conditional holds for the conditional. -/
theorem ite_category (c : Prop) [Decidable c] (a b : ObjectType)
    (ha : a.toNat < ObjectType.MAX_OBJECT_TYPE.toNat)
    (hb : b.toNat < ObjectType.MAX_OBJECT_TYPE.toNat) :
    (if c then a else b).toNat < ObjectType.MAX_OBJECT_TYPE.toNat := by
  split <;> assumption

/-- The integer value of the category of a string is below `MAX_OBJECT_TYPE`. -/
theorem get_object_type_toNat_lt (s : List Char) :
    (get_object_type s).toNat < ObjectType.MAX_OBJECT_TYPE.toNat := by
  unfold get_object_type
  generalize lower s = t
  show (if t = "unknown".toList then ObjectType.UNKNOWN else _).toNat < _
  repeat' (first | exact (by decide) | apply ite_category)

/-- The category, score and `type_probs` of the object built from a scan. -/
theorem visual_object_of_scan_type_probs (s : ScanResult) :
    (visual_object_of_scan s).type = get_object_type s.type ∧
      (visual_object_of_scan s).score = s.values.getD 14 0 ∧
      (visual_object_of_scan s).type_probs =
        (List.replicate ObjectType.MAX_OBJECT_TYPE.toNat (0 : ℚ)).set
          (get_object_type s.type).toNat (s.values.getD 14 0) :=
  ⟨rfl, rfl, rfl⟩

/-- A vector of six zeros with one entry set. -/
theorem replicate_set_spec (i : Nat) (x : ℚ) (hi : i < 6) :
    ((List.replicate 6 (0 : ℚ)).set i x).length = 6 ∧
      ((List.replicate 6 (0 : ℚ)).set i x).getD i 0 = x ∧
      (∀ j, j ≠ i → ((List.replicate 6 (0 : ℚ)).set i x).getD j 0 = 0) ∧
      (((List.replicate 6 (0 : ℚ)).set i x).filter (fun p => decide (p ≠ 0))).length =
        (if x = 0 then 0 else 1) := by
  refine ⟨by simp, ?_, ?_, ?_⟩
  · interval_cases i <;> rfl
  · intro j hj
    interval_cases i <;>
      (rcases j with _ | _ | _ | _ | _ | _ | j <;> first | rfl | exact absurd rfl hj)
  · by_cases hx : x = 0
    · subst hx
      interval_cases i <;> simp [List.replicate, List.set, List.filter]
    · interval_cases i <;> simp [List.replicate, List.set, List.filter, hx]

/-- C11, as stated, fails: the record that `load_visual_object_form_file`
builds from the line of `visual_zero_score_file`, whose score is 0, has no
nonzero entry in `type_probs`; and the two records that `load_gt_form_file`
builds from `gt_example_file`, with scores 0.9 and 0.8, have no nonzero entry
either, since that loader never writes `type_probs`. -/
theorem loaded_type_probs_without_nonzero_entry :
    (load_visual_object_form_file (some visual_zero_score_file) []).map
        (fun r => r.2.map (fun o => (nonzero_probs o, o.score))) = some [(0, 0)] ∧
      (load_gt_form_file (some gt_example_file) []).2.map
        (fun o => (nonzero_probs o, o.score)) = [(0, 9 / 10), (0, 4 / 5)] := by
  decide!

/-- C11, amended: every record that `load_visual_object_form_file` appends has
a `type_probs` of `MAX_OBJECT_TYPE` entries that holds the record's score at
the index of the record's type and zero at every other index; it has exactly
one nonzero entry when the score is not zero, and none when it is zero. -/
theorem load_visual_object_form_file_type_probs (file : Option (List Char))
    (v objs : List VisualObject) (status : Bool) (o : VisualObject)
    (h : load_visual_object_form_file file v = some (status, objs))
    (ho : o ∈ objs.drop v.length) :
    o.type_probs.length = ObjectType.MAX_OBJECT_TYPE.toNat ∧
      o.type.toNat < ObjectType.MAX_OBJECT_TYPE.toNat ∧
      o.type_probs.getD o.type.toNat 0 = o.score ∧
      (∀ j, j ≠ o.type.toNat → o.type_probs.getD j 0 = 0) ∧
      nonzero_probs o = (if o.score = 0 then 0 else 1) := by
  unfold load_visual_object_form_file at h
  cases file with
  | none =>
    simp only [fopen_read, Option.some.injEq, Prod.mk.injEq] at h
    rw [← h.2] at ho
    simp at ho
  | some content =>
    simp only [fopen_read, Option.map_eq_some', Prod.mk.injEq] at h
    obtain ⟨objs', hloop, -, rfl⟩ := h
    obtain ⟨recs, rfl, hall⟩ := load_visual_loop_new _ _ _ _ hloop
    rw [List.drop_left] at ho
    obtain ⟨fp, -, rfl⟩ := hall o ho
    obtain ⟨ht, hs, hp⟩ := visual_object_of_scan_type_probs (fscanf fp).1
    have hlt := get_object_type_toNat_lt (fscanf fp).1.type
    obtain ⟨h1, h2, h3, h4⟩ := replicate_set_spec _ ((fscanf fp).1.values.getD 14 0) hlt
    unfold nonzero_probs
    rw [ht, hs, hp]
    exact ⟨h1, hlt, h2, h3, h4⟩

/-- Witness of C11 (amended): the first record of `visual_example_file`, a
vehicle with score 0.9. -/
theorem load_visual_object_form_file_type_probs_witness :
    (load_visual_object_form_file (some visual_example_file) [] =
        some (true, visual_example_records) ∧
      visual_example_first ∈ visual_example_records.drop 0) ∧
    visual_example_first.type_probs = [0, 0, 0, 0, 0, 9 / 10] ∧
    visual_example_first.type_probs.getD visual_example_first.type.toNat 0 =
      visual_example_first.score ∧
    nonzero_probs visual_example_first = (if visual_example_first.score = 0 then 0 else 1) :=
  ⟨⟨by decide!, by decide!⟩, rfl,
    (load_visual_object_form_file_type_probs (some visual_example_file) []
      visual_example_records true visual_example_first (by decide!) (by decide!)).2.2.1,
    (load_visual_object_form_file_type_probs (some visual_example_file) []
      visual_example_records true visual_example_first (by decide!) (by decide!)).2.2.2.2⟩

/-- C12: evaluation at the failing input: when the ground-truth file cannot be
opened, `load_gt_form_file` returns `true` and leaves the vector as it is. -/
theorem load_gt_form_file_unopened (v : List VisualObject) :
    load_gt_form_file none v = (Outcome.returned true, v) := by
  rfl

/-- C14: evaluation at the failing input: on `gt_abort_file` the call is left
by `std::invalid_argument` at the second line; the record of the first line
has been appended, the third line is never read, and no status is returned. -/
theorem load_gt_form_file_aborts :
    (gt_lines (some gt_abort_file)).length = 3 ∧
      (gt_lines (some gt_abort_file)).map (fun l => (split_tokens l).length) = [16, 16, 16] ∧
      load_gt_form_file (some gt_abort_file) [] =
        (Outcome.threw StdException.invalid_argument, [gt_example_first]) := by
  decide!

/-! ## Labels and categories; appending -/

/-- C16: the composite `get_type_text(get_object_type(s))` is "car" when the
lower-cased `s` is one of vehicle, bus, car, tram, truck, van, "bicycle" when
it is bicycle or cyclist, "pedestrian" when it is pedestrian or
person_sitting, and "unknown" for every other string; so "cyclist" gives
"bicycle" and "truck" gives "car". -/
theorem get_type_text_get_object_type (s : List Char) :
    get_type_text (get_object_type s) =
        (if lower s ∈ ["vehicle".toList, "bus".toList, "car".toList, "tram".toList,
            "truck".toList, "van".toList] then "car".toList
         else if lower s ∈ ["bicycle".toList, "cyclist".toList] then "bicycle".toList
         else if lower s ∈ ["pedestrian".toList, "person_sitting".toList] then
           "pedestrian".toList
         else "unknown".toList) ∧
      get_type_text (get_object_type "cyclist".toList) = "bicycle".toList ∧
      get_type_text (get_object_type "truck".toList) = "car".toList := by
  refine ⟨?_, by decide, by decide⟩
  simp only [get_object_type]
  generalize lower s = t
  by_cases h1 : t = "unknown".toList
  · subst h1; decide
  by_cases h2 : t = "unknown_movable".toList
  · subst h2; decide
  by_cases h3 : t = "unknown_unmovable".toList
  · subst h3; decide
  by_cases h4 : t = "pedestrian".toList
  · subst h4; decide
  by_cases h5 : t = "bicycle".toList
  · subst h5; decide
  by_cases h6 : t = "vehicle".toList
  · subst h6; decide
  by_cases h7 : t = "bus".toList
  · subst h7; decide
  by_cases h8 : t = "car".toList
  · subst h8; decide
  by_cases h9 : t = "cyclist".toList
  · subst h9; decide
  by_cases h10 : t = "dontcare".toList
  · subst h10; decide
  by_cases h11 : t = "misc".toList
  · subst h11; decide
  by_cases h12 : t = "person_sitting".toList
  · subst h12; decide
  by_cases h13 : t = "tram".toList
  · subst h13; decide
  by_cases h14 : t = "truck".toList
  · subst h14; decide
  by_cases h15 : t = "van".toList
  · subst h15; decide
  rw [if_neg h1, if_neg h2, if_neg h3, if_neg h4, if_neg h5, if_neg h6, if_neg h7, if_neg h8,
    if_neg h9, if_neg h10, if_neg h11, if_neg h12, if_neg h13, if_neg h14, if_neg h15]
  have m1 : ¬ t ∈ ["vehicle".toList, "bus".toList, "car".toList, "tram".toList,
      "truck".toList, "van".toList] := by
    intro h
    simp only [List.mem_cons, List.mem_singleton, List.not_mem_nil, or_false] at h
    rcases h with h | h | h | h | h | h <;> contradiction
  have m2 : ¬ t ∈ ["bicycle".toList, "cyclist".toList] := by
    intro h
    simp only [List.mem_cons, List.mem_singleton, List.not_mem_nil, or_false] at h
    rcases h with h | h <;> contradiction
  have m3 : ¬ t ∈ ["pedestrian".toList, "person_sitting".toList] := by
    intro h
    simp only [List.mem_cons, List.mem_singleton, List.not_mem_nil, or_false] at h
    rcases h with h | h <;> contradiction
  rw [if_neg m1, if_neg m2, if_neg m3]
  rfl

/-- C19: for every category `c`, `get_object_type(get_type_text(c)) = c`
exactly when `c` is `UNKNOWN`, `PEDESTRIAN`, `BICYCLE` or `VEHICLE`; it is
`UNKNOWN` for `UNKNOWN_MOVABLE` and `UNKNOWN_UNMOVABLE`; and the
canonicalisation of labels `s -> get_type_text(get_object_type(s))` is
idempotent on all strings. -/
theorem label_category_round_trip (c : ObjectType) (s : List Char) :
    (get_object_type (get_type_text c) = c ↔
        c = ObjectType.UNKNOWN ∨ c = ObjectType.PEDESTRIAN ∨ c = ObjectType.BICYCLE ∨
          c = ObjectType.VEHICLE) ∧
      get_object_type (get_type_text ObjectType.UNKNOWN_MOVABLE) = ObjectType.UNKNOWN ∧
      get_object_type (get_type_text ObjectType.UNKNOWN_UNMOVABLE) = ObjectType.UNKNOWN ∧
      canonical_label (canonical_label s) = canonical_label s := by
  refine ⟨?_, by decide, by decide, ?_⟩
  · cases c <;> decide
  · unfold canonical_label
    generalize get_object_type s = t
    cases t <;> decide

/-- The read loop only appends to the caller's vector. -/
theorem load_visual_loop_append (fuel : Nat) (fp : FILE) (v : List VisualObject) :
    load_visual_loop fuel fp v = (load_visual_loop fuel fp []).map (fun recs => v ++ recs) := by
  induction fuel generalizing fp v with
  | zero =>
    simp only [load_visual_loop]
    split <;> simp
  | succ fuel ih =>
    simp only [load_visual_loop]
    split
    · simp
    · rw [ih _ (load_visual_step fp v).2, ih _ (load_visual_step fp []).2]
      simp only [load_visual_step]
      split <;> simp [Function.comp_def]

/-- C20: both loaders only append. After `load_gt_form_file` the vector is
the initial vector `v` followed by the records that the same call appends to
an empty vector, the outcome does not depend on `v`, and the ids of the new
records count from 0 whatever the length of `v`; after
`load_visual_object_form_file` the vector is `v` followed by the records that
the same call appends to an empty vector. -/
theorem loaders_only_append (gt_file file : Option (List Char)) (v : List VisualObject) :
    (load_gt_form_file gt_file v =
        ((load_gt_form_file gt_file []).1, v ++ (load_gt_form_file gt_file []).2) ∧
      ((load_gt_form_file gt_file v).2.drop v.length).map (fun o => o.id) =
        (List.range ((load_gt_form_file gt_file v).2.length - v.length)).map
          (fun (k : Nat) => (k : Int))) ∧
    load_visual_object_form_file file v =
      (load_visual_object_form_file file []).map (fun r => (r.1, v ++ r.2)) := by
  refine ⟨⟨?_, ?_⟩, ?_⟩
  · unfold load_gt_form_file
    exact load_gt_loop_append _ _ _
  · have hids := load_gt_loop_ids (gt_lines gt_file) 0
    simp only [Nat.cast_zero, Nat.zero_add] at hids
    unfold load_gt_form_file
    rw [load_gt_loop_append]
    simpa using hids
  · cases file with
    | none => simp [load_visual_object_form_file, fopen_read]
    | some content =>
      simp only [load_visual_object_form_file, fopen_read]
      rw [load_visual_loop_append]
      simp [Function.comp_def]

/-! ## Trailing newline: lemmas -/

/-- Reading while a test holds, on input followed by a character that fails
the test. -/
theorem takeWhile_dropWhile_snoc (p : Char → Bool) (c : Char) (hc : p c = false)
    (a : List Char) :
    (a ++ [c]).takeWhile p = a.takeWhile p ∧
      (a ++ [c]).dropWhile p = a.dropWhile p ++ [c] := by
  induction a with
  | nil => simp [List.takeWhile, List.dropWhile, hc]
  | cons x xs ih =>
    by_cases hx : p x = true
    · simp [List.takeWhile, List.dropWhile, hx, ih.1, ih.2]
    · simp [List.takeWhile, List.dropWhile, hx]

/-- Skipping white space on input followed by a newline. -/
theorem dropWhile_isspace_snoc (a : List Char) :
    (a ++ ['\n']).dropWhile isspace =
      (if a.dropWhile isspace = [] then [] else a.dropWhile isspace ++ ['\n']) := by
  induction a with
  | nil => rfl
  | cons x xs ih =>
    by_cases hx : isspace x = true
    · simp only [List.cons_append, List.dropWhile_cons, hx, if_true]
      exact ih
    · simp [List.dropWhile_cons, hx]

/-- A sign on input followed by a newline. -/
theorem scan_sign_snoc (a : List Char) :
    scan_sign (a ++ ['\n']) = ((scan_sign a).1, (scan_sign a).2 ++ ['\n']) := by
  cases a with
  | nil => rfl
  | cons x xs =>
    by_cases h1 : x = '-'
    · subst h1; rfl
    · by_cases h2 : x = '+'
      · subst h2; rfl
      · have e1 : scan_sign (x :: xs) = (false, x :: xs) := by
          unfold scan_sign
          split
          · rename_i heq; exact absurd (List.cons.inj heq).1 h1
          · rename_i heq; exact absurd (List.cons.inj heq).1 h2
          · rfl
        have e2 : scan_sign (x :: (xs ++ ['\n'])) = (false, x :: (xs ++ ['\n'])) := by
          unfold scan_sign
          split
          · rename_i heq; exact absurd (List.cons.inj heq).1 h1
          · rename_i heq; exact absurd (List.cons.inj heq).1 h2
          · rfl
        rw [List.cons_append, e1, e2]
        rfl

/-- The mantissa of input whose digits are followed by a point. -/
theorem scan_mantissa_point (cs r : List Char) (h : cs.dropWhile isdigit = '.' :: r) :
    scan_mantissa cs = (cs.takeWhile isdigit, r.takeWhile isdigit, r.dropWhile isdigit) := by
  unfold scan_mantissa
  rw [h]
  rfl

/-- The mantissa of input whose digits are not followed by a point. -/
theorem scan_mantissa_no_point (cs r : List Char) (h : cs.dropWhile isdigit = r)
    (hr : ∀ r', r ≠ '.' :: r') :
    scan_mantissa cs = (cs.takeWhile isdigit, [], r) := by
  unfold scan_mantissa
  rw [h]
  split
  · rename_i r'; exact absurd rfl (hr r')
  · rfl

/-- A mantissa on input followed by a newline. -/
theorem scan_mantissa_snoc (a : List Char) :
    scan_mantissa (a ++ ['\n']) =
      ((scan_mantissa a).1, (scan_mantissa a).2.1, (scan_mantissa a).2.2 ++ ['\n']) := by
  have hd := takeWhile_dropWhile_snoc isdigit '\n' (by decide) a
  cases hr : a.dropWhile isdigit with
  | nil =>
    rw [scan_mantissa_no_point a [] hr (by intro r' h; cases h),
      scan_mantissa_no_point (a ++ ['\n']) ['\n'] (by rw [hd.2, hr]; rfl)
        (by intro r' h; exact absurd (List.cons.inj h).1 (by decide)), hd.1]
    rfl
  | cons x xs =>
    by_cases hx : x = '.'
    · subst hx
      have hd2 := takeWhile_dropWhile_snoc isdigit '\n' (by decide) xs
      rw [scan_mantissa_point a xs hr,
        scan_mantissa_point (a ++ ['\n']) (xs ++ ['\n']) (by rw [hd.2, hr]; rfl),
        hd.1, hd2.1, hd2.2]
    · rw [scan_mantissa_no_point a (x :: xs) hr
          (by intro r' h; exact hx (List.cons.inj h).1),
        scan_mantissa_no_point (a ++ ['\n']) (x :: (xs ++ ['\n'])) (by rw [hd.2, hr]; rfl)
          (by intro r' h; exact hx (List.cons.inj h).1), hd.1]
      rfl

/-- A numeric conversion on input that is white space only. -/
theorem scan_double_blank (a : List Char) (h : a.dropWhile isspace = []) :
    scan_double a = (none, []) := by
  unfold scan_double
  rw [h]
  rfl

/-- A numeric conversion on input followed by a newline: the same value, and
the newline is left unread behind the same unread input. -/
theorem scan_double_snoc (a : List Char) (h : a.dropWhile isspace ≠ []) :
    scan_double (a ++ ['\n']) = ((scan_double a).1, (scan_double a).2 ++ ['\n']) := by
  have hw := dropWhile_isspace_snoc a
  rw [if_neg h] at hw
  rcases hs : scan_sign (a.dropWhile isspace) with ⟨neg, r0⟩
  rcases hm : scan_mantissa r0 with ⟨ip, fp, r1⟩
  have hs' : scan_sign (a.dropWhile isspace ++ ['\n']) = (neg, r0 ++ ['\n']) := by
    rw [scan_sign_snoc, hs]
  have hm' : scan_mantissa (r0 ++ ['\n']) = (ip, fp, r1 ++ ['\n']) := by
    rw [scan_mantissa_snoc, hm]
  unfold scan_double
  simp only [hw, hs, hs', hm, hm']
  by_cases hd : ip = [] ∧ fp = []
  · rw [if_pos hd, if_pos hd]
  · rw [if_neg hd, if_neg hd]
    cases r1 with
    | nil => rfl
    | cons c r2 =>
      simp only [List.cons_append]
      by_cases hc : c = 'e' ∨ c = 'E'
      · rw [if_pos hc, if_pos hc]
        rcases he : scan_sign r2 with ⟨eneg, r3⟩
        have he' : scan_sign (r2 ++ ['\n']) = (eneg, r3 ++ ['\n']) := by
          rw [scan_sign_snoc, he]
        have hd3 := takeWhile_dropWhile_snoc isdigit '\n' (by decide) r3
        simp only [he', hd3.1, hd3.2]
        by_cases ht : r3.takeWhile isdigit = []
        · rw [if_pos ht, if_pos ht]
        · rw [if_neg ht, if_neg ht]
      · rw [if_neg hc, if_neg hc]
        rfl

/-- A numeric conversion on two inputs that differ by a trailing newline
gives the same value and leaves inputs that differ by a trailing newline. -/
theorem scan_double_newline_added (a b : List Char) (h : newline_added a b) :
    (scan_double b).1 = (scan_double a).1 ∧
      newline_added (scan_double a).2 (scan_double b).2 := by
  rcases h with rfl | ⟨rfl, rfl⟩
  · by_cases hd : a.dropWhile isspace = []
    · have hb : (a ++ ['\n']).dropWhile isspace = [] := by
        rw [dropWhile_isspace_snoc, if_pos hd]
      rw [scan_double_blank a hd, scan_double_blank _ hb]
      exact ⟨rfl, Or.inr ⟨rfl, rfl⟩⟩
    · rw [scan_double_snoc a hd]
      exact ⟨rfl, Or.inl rfl⟩
  · exact ⟨rfl, Or.inr ⟨rfl, rfl⟩⟩

/-- Numeric conversions on two inputs that differ by a trailing newline give
the same values and leave inputs that differ by a trailing newline. -/
theorem scan_doubles_newline_added (n : Nat) (a b : List Char) (h : newline_added a b) :
    (scan_doubles n b).1 = (scan_doubles n a).1 ∧
      newline_added (scan_doubles n a).2 (scan_doubles n b).2 := by
  induction n generalizing a b with
  | zero => exact ⟨rfl, h⟩
  | succ n ih =>
    obtain ⟨h1, h2⟩ := scan_double_newline_added a b h
    rcases ha : scan_double a with ⟨va, ra⟩
    rcases hb : scan_double b with ⟨vb, rb⟩
    rw [ha, hb] at h1 h2
    simp only at h1 h2
    subst h1
    simp only [scan_doubles, ha, hb]
    cases vb with
    | none => exact ⟨rfl, h2⟩
    | some q =>
      obtain ⟨i1, i2⟩ := ih ra rb h2
      simp only [i1]
      exact ⟨trivial, i2⟩

/-- The conversion `%s` on input followed by a newline: it fails on both
inputs, or stores the same string and leaves the newline behind the same
unread input. -/
theorem scan_string_snoc (a : List Char) :
    (scan_string a = none ∧ scan_string (a ++ ['\n']) = none) ∨
      ∃ t r, scan_string a = some (t, r) ∧ scan_string (a ++ ['\n']) = some (t, r ++ ['\n']) := by
  unfold scan_string
  simp only [dropWhile_isspace_snoc]
  by_cases hd : a.dropWhile isspace = []
  · left
    simp [hd]
  · right
    have hn := takeWhile_dropWhile_snoc (fun c => !isspace c) '\n' (by decide)
      (a.dropWhile isspace)
    refine ⟨_, _, by rw [if_neg hd], ?_⟩
    rw [if_neg hd, if_neg (by simp [hd]), hn.1, hn.2]

/-- One call of `fscanf` on two streams that differ by a trailing newline
delivers the same result and leaves streams that are equal or differ by the
trailing newline. -/
theorem fscanf_newline_added (x y : FILE) (h : y.buf = x.buf ++ ['\n']) :
    (fscanf y).1 = (fscanf x).1 ∧ newline_pending (fscanf x).2 (fscanf y).2 := by
  unfold fscanf
  rw [h]
  rcases scan_string_snoc x.buf with ⟨h1, h2⟩ | ⟨t, r, h1, h2⟩
  · rw [h1, h2]
    exact ⟨rfl, Or.inl rfl⟩
  · rw [h1, h2]
    obtain ⟨hv, hr⟩ := scan_doubles_newline_added 17 r (r ++ ['\n']) (Or.inl rfl)
    simp only [hv]
    refine ⟨trivial, ?_⟩
    rcases hr with hr | ⟨hr1, hr2⟩
    · right
      refine ⟨hr, ?_, ?_⟩
      · simp [hr]
      · intro he
        simpa using he
    · left
      simp [hr1, hr2]

/-- The result of the read loop does not depend on the number of iterations
it is given, as long as it ends. -/
theorem load_visual_loop_fuel (f1 f2 : Nat) (fp : FILE) (v r1 r2 : List VisualObject)
    (h1 : load_visual_loop f1 fp v = some r1) (h2 : load_visual_loop f2 fp v = some r2) :
    r1 = r2 := by
  induction f1 generalizing f2 fp v with
  | zero =>
    simp only [load_visual_loop] at h1
    split at h1
    · rename_i he
      cases f2 <;> simp only [load_visual_loop, he, if_true] at h2 <;>
        exact (Option.some.inj h1).symm.trans (Option.some.inj h2)
    · cases h1
  | succ f1 ih =>
    simp only [load_visual_loop] at h1
    split at h1
    · rename_i he
      cases f2 <;> simp only [load_visual_loop, he, if_true] at h2 <;>
        exact (Option.some.inj h1).symm.trans (Option.some.inj h2)
    · rename_i he
      cases f2 with
      | zero => simp [load_visual_loop, he] at h2
      | succ f2 =>
        simp only [load_visual_loop, he, if_false] at h2
        exact ih f2 _ _ h1 h2

/-- The read loop appends the same records on two streams of which one has
one more newline to read. -/
theorem load_visual_loop_newline_pending (f1 f2 : Nat) (x y : FILE)
    (v r1 r2 : List VisualObject) (h : newline_pending x y)
    (h1 : load_visual_loop f1 x v = some r1) (h2 : load_visual_loop f2 y v = some r2) :
    r1 = r2 := by
  induction f1 generalizing f2 x y v with
  | zero =>
    rcases h with rfl | ⟨hb, hey, hx⟩
    · exact load_visual_loop_fuel 0 f2 x v r1 r2 h1 h2
    · simp only [load_visual_loop] at h1
      split at h1
      · rename_i he
        have hxb := hx he
        have hy : y = { buf := ['\n'], eof := false } := by
          cases y
          simp only [hxb, List.nil_append] at hb hey
          simp [hb, hey]
        subst hy
        cases f2 with
        | zero => simp [load_visual_loop] at h2
        | succ f2 =>
          have hstep : load_visual_step { buf := ['\n'], eof := false } v =
              ({ buf := [], eof := true }, v) := rfl
          simp only [load_visual_loop, Bool.false_eq_true, if_false, hstep] at h2
          cases f2 <;> simp only [load_visual_loop, if_true] at h2 <;>
            exact (Option.some.inj h1).symm.trans (Option.some.inj h2)
      · cases h1
  | succ f1 ih =>
    rcases h with rfl | ⟨hb, hey, hx⟩
    · exact load_visual_loop_fuel (f1 + 1) f2 x v r1 r2 h1 h2
    · simp only [load_visual_loop] at h1
      split at h1
      · rename_i he
        have hxb := hx he
        have hy : y = { buf := ['\n'], eof := false } := by
          cases y
          simp only [hxb, List.nil_append] at hb hey
          simp [hb, hey]
        subst hy
        cases f2 with
        | zero => simp [load_visual_loop] at h2
        | succ f2 =>
          have hstep : load_visual_step { buf := ['\n'], eof := false } v =
              ({ buf := [], eof := true }, v) := rfl
          simp only [load_visual_loop, Bool.false_eq_true, if_false, hstep] at h2
          cases f2 <;> simp only [load_visual_loop, if_true] at h2 <;>
            exact (Option.some.inj h1).symm.trans (Option.some.inj h2)
      · cases f2 with
        | zero => simp [load_visual_loop, hey] at h2
        | succ f2 =>
          simp only [load_visual_loop, hey, Bool.false_eq_true, if_false] at h2
          obtain ⟨hres, hpend⟩ := fscanf_newline_added x y hb
          have hobjs : (load_visual_step y v).2 = (load_visual_step x v).2 := by
            simp only [load_visual_step, hres]
          rw [hobjs] at h2
          exact ih f2 _ _ _ hpend h1 h2

/-- C17: for every file content the read loop of
`load_visual_object_form_file` ends and the call returns; every call of
`fscanf` in it reaches the end of the file or consumes at least one
character; and a trailing newline adds no record: the call on a content
followed by a newline gives what it gives on the content. -/
theorem load_visual_object_form_file_trailing_newline (content : List Char)
    (v : List VisualObject) (fp : FILE) :
    (∃ objs, load_visual_object_form_file (some content) v = some (true, objs)) ∧
      ((fscanf fp).2.eof = true ∨ (fscanf fp).2.buf.length < fp.buf.length) ∧
      load_visual_object_form_file (some (content ++ ['\n'])) v =
        load_visual_object_form_file (some content) v := by
  refine ⟨load_visual_object_form_file_returns content v, fscanf_progress fp, ?_⟩
  obtain ⟨r1, h1⟩ := load_visual_object_form_file_returns content v
  obtain ⟨r2, h2⟩ := load_visual_object_form_file_returns (content ++ ['\n']) v
  rw [h1, h2]
  simp only [load_visual_object_form_file, fopen_read, Option.map_eq_some', Prod.mk.injEq,
    true_and, exists_eq_right] at h1 h2
  have := load_visual_loop_newline_pending _ _ { buf := content, eof := false }
    { buf := content ++ ['\n'], eof := false } v r1 r2
    (Or.inr ⟨rfl, rfl, by intro h; cases h⟩) h1 h2
  rw [this]

/-! ## Written lines -/

/-- The text of `%.2f` is not empty and has no white space. -/
theorem fprintf_2f_plain (q : ℚ) :
    fprintf_2f q ≠ [] ∧ ∀ c ∈ fprintf_2f q, isspace c = false := by
  obtain ⟨_, hdig, _⟩ := decimal_digits_spec (hundredths q / 100)
  have hd1 := digitChar_spec (hundredths q / 10 % 10) (Nat.mod_lt _ (by decide))
  have hd2 := digitChar_spec (hundredths q % 10) (Nat.mod_lt _ (by decide))
  unfold fprintf_2f
  refine ⟨by simp, ?_⟩
  intro c hc
  simp only [List.mem_append, List.mem_cons, List.mem_singleton, List.not_mem_nil,
    or_false] at hc
  rcases hc with (hc | hc) | hc | hc | hc
  · split at hc
    · simp only [List.mem_singleton] at hc
      subst hc; decide
    · simp at hc
  · exact (isdigit_ne c (hdig c hc)).2.2.2
  · subst hc; decide
  · subst hc; exact (isdigit_ne _ hd1.1).2.2.2
  · subst hc; exact (isdigit_ne _ hd2.1).2.2.2

/-- A label is not empty and has no white space. -/
theorem get_type_text_plain (t : ObjectType) :
    get_type_text t ≠ [] ∧ ∀ c ∈ get_type_text t, isspace c = false := by
  cases t <;> exact ⟨by decide, by decide⟩

/-- Every written field is not empty and has no white space. -/
theorem written_fields_plain (o : VisualObject) :
    ∀ w ∈ written_fields o, w ≠ [] ∧ ∀ c ∈ w, isspace c = false := by
  intro w hw
  simp only [written_fields, List.mem_cons, List.mem_map] at hw
  rcases hw with rfl | ⟨q, -, rfl⟩
  · exact get_type_text_plain _
  · exact fprintf_2f_plain q

/-- Token extraction runs through characters that are not white space. -/
theorem tokens_from_word (w rest cur : List Char) (hw : ∀ c ∈ w, isspace c = false) :
    tokens_from (w ++ rest) cur = tokens_from rest (w.reverse ++ cur) := by
  induction w generalizing cur with
  | nil => rfl
  | cons x xs ih =>
    have hx : isspace x = false := hw x (List.mem_cons_self _ _)
    have hxs : ∀ c ∈ xs, isspace c = false := fun c hc => hw c (List.mem_cons_of_mem _ hc)
    simp only [List.cons_append, tokens_from, hx, Bool.false_eq_true, if_false,
      List.append_eq]
    rw [ih (x :: cur) hxs]
    simp

/-- The tokens of words that are each preceded by a blank, after a word in
progress. -/
theorem tokens_from_fields (ws : List (List Char)) (cur : List Char) (hcur : cur ≠ [])
    (hws : ∀ w ∈ ws, w ≠ [] ∧ ∀ c ∈ w, isspace c = false) :
    tokens_from ((ws.map (fun w => ' ' :: w)).flatten) cur = cur.reverse :: ws := by
  induction ws generalizing cur with
  | nil => simp [tokens_from, hcur]
  | cons w ws ih =>
    obtain ⟨hne, hpl⟩ := hws w (List.mem_cons_self _ _)
    have hws' : ∀ x ∈ ws, x ≠ [] ∧ ∀ c ∈ x, isspace c = false :=
      fun x hx => hws x (List.mem_cons_of_mem _ hx)
    have hsp : isspace ' ' = true := by decide
    simp only [List.map_cons, List.flatten_cons, List.cons_append, tokens_from, hsp, if_true,
      hcur, if_false, List.append_eq]
    rw [tokens_from_word w _ [] hpl, ih (w.reverse ++ []) (by simpa using hne) hws']
    simp

/-- The tokens of a written line are its fields. -/
theorem split_tokens_written_line (o : VisualObject) :
    split_tokens (written_line_body o) = written_fields o := by
  have hf := written_fields_plain o
  have hl := get_type_text_plain o.type
  unfold split_tokens written_line_body
  rw [tokens_from_word _ _ [] hl.2]
  have hmap : (written_values o).map (fun q => ' ' :: fprintf_2f q) =
      ((written_values o).map fprintf_2f).map (fun w => ' ' :: w) := by
    simp [Function.comp_def]
  rw [hmap, tokens_from_fields _ _ (by simpa using hl.1)
    (fun w hw => hf w (List.mem_cons_of_mem _ hw))]
  simp [written_fields]

/-- Reading a line runs through characters that are not a newline. -/
theorem getlines_from_line (w rest cur : List Char) (hw : ∀ c ∈ w, c ≠ '\n') :
    getlines_from (w ++ '\n' :: rest) cur = (cur.reverse ++ w) :: getlines_from rest [] := by
  induction w generalizing cur with
  | nil => simp [getlines_from]
  | cons x xs ih =>
    have hx : x ≠ '\n' := hw x (List.mem_cons_self _ _)
    have hxs : ∀ c ∈ xs, c ≠ '\n' := fun c hc => hw c (List.mem_cons_of_mem _ hc)
    simp only [List.cons_append, getlines_from, hx, if_false, List.append_eq]
    rw [ih (x :: cur) hxs]
    simp

/-- A written line has no newline before its end. -/
theorem written_line_body_no_newline (o : VisualObject) :
    ∀ c ∈ written_line_body o, c ≠ '\n' := by
  intro c hc hn
  subst hn
  simp only [written_line_body, List.mem_append, List.mem_flatten, List.mem_map] at hc
  rcases hc with hc | ⟨l, ⟨q, -, rfl⟩, hc⟩
  · exact absurd ((get_type_text_plain o.type).2 _ hc) (by decide)
  · rcases List.mem_cons.mp hc with hc | hc
    · exact absurd hc (by decide)
    · exact absurd ((fprintf_2f_plain q).2 _ hc) (by decide)

/-- The line written for a record is its body followed by a newline. -/
theorem write_line_eq (o : VisualObject) : write_line o = written_line_body o ++ ['\n'] :=
  rfl

/-- The lines of the written text are the bodies of the written lines. -/
theorem getlines_written (rs : List VisualObject) :
    getlines ((rs.map write_line).flatten) = rs.map written_line_body := by
  unfold getlines
  induction rs with
  | nil => rfl
  | cons o rs ih =>
    rw [written_lines_cons, write_line_eq, List.append_assoc, List.singleton_append,
      getlines_from_line _ _ [] (written_line_body_no_newline o), ih]
    simp

/-- C15, as stated, fails: each of the three lines written for the records of
`visual_example_file` holds 16 fields separated by blanks, the label and 15
numbers, not 15 fields. -/
theorem written_lines_have_16_fields :
    (write_visual_object_to_file true visual_example_records).2.map
        (fun text => (getlines text).map (fun line => (split_tokens line).length)) =
      some [16, 16, 16] := by
  decide!

/-- C15, amended: for every record list, `write_visual_object_to_file` emits
exactly one line per record, in order, each line holding exactly 16 fields
separated by single blanks: the label `get_type_text(type)`, two placeholders
"0.00", then alpha, the four corners, height, width, length, the center,
theta and score in `%.2f`, with no truncation fields. -/
theorem write_visual_object_to_file_lines (rs : List VisualObject) :
    (∃ text, write_visual_object_to_file true rs = (true, some text) ∧
      text = (rs.map (fun o => written_line_body o ++ ['\n'])).flatten ∧
      getlines text = rs.map written_line_body ∧
      (getlines text).map split_tokens = rs.map written_fields) ∧
    ∀ o : VisualObject,
      written_line_body o = List.intercalate [' '] (written_fields o) ∧
      (written_fields o).length = 16 ∧
      written_fields o =
        [get_type_text o.type, "0.00".toList, "0.00".toList, fprintf_2f o.alpha,
          fprintf_2f o.upper_left.1, fprintf_2f o.upper_left.2,
          fprintf_2f o.lower_right.1, fprintf_2f o.lower_right.2,
          fprintf_2f o.height, fprintf_2f o.width, fprintf_2f o.length,
          fprintf_2f o.center.1, fprintf_2f o.center.2.1, fprintf_2f o.center.2.2,
          fprintf_2f o.theta, fprintf_2f o.score] := by
  have hzero : fprintf_2f 0 = "0.00".toList := by decide!
  refine ⟨⟨(rs.map write_line).flatten, ?_, ?_, getlines_written rs, ?_⟩, ?_⟩
  · simp [write_visual_object_to_file]
  · rfl
  · rw [getlines_written, List.map_map]
    exact List.map_congr_left (fun o _ => split_tokens_written_line o)
  · intro o
    refine ⟨?_, rfl, ?_⟩
    · simp [written_line_body, written_fields, written_values, List.intercalate,
        List.intersperse]
    · simp only [written_fields, written_values, List.map, hzero]

/-! ## Renderer: theorems -/

/-- C18: `draw_visual_objects` and `draw_gt_objects_text` called with an empty
record collection leave the image unchanged, and for any record collection
they leave the records unchanged. (On a record the two routines do draw: on
`canvas_log` the first makes four line calls and one text call, the second
one text call.) -/
theorem draw_frame {Mat Scalar : Type} (cv : Canvas Mat Scalar)
    (visual_objects : List VisualObject) (img : Mat) :
    (draw_visual_objects cv [] img).2 = img ∧
      (draw_gt_objects_text cv [] img).2 = img ∧
      (draw_visual_objects cv visual_objects img).1 = visual_objects ∧
      (draw_gt_objects_text cv visual_objects img).1 = visual_objects ∧
      (draw_visual_objects canvas_log [visual_example_third] []).2 =
        [(100, 100, 300, 100), (300, 100, 300, 400), (300, 400, 100, 400),
          (100, 400, 100, 100), (100, 95, 100, 95)] ∧
      (draw_gt_objects_text canvas_log [visual_example_third] []).2 =
        [(100, 410, 100, 410)] := by
  refine ⟨rfl, rfl, ?_, ?_, by decide!, by decide!⟩
  · induction visual_objects generalizing img with
    | nil => rfl
    | cons obj rest ih =>
      simp only [draw_visual_objects]
      rw [ih]
  · induction visual_objects generalizing img with
    | nil => rfl
    | cons obj rest ih =>
      simp only [draw_gt_objects_text]
      rw [ih]

/-! ## Opening and reading failures -/

end perception
end apollo
